import Mathlib

/-! asciinema-diff: the comparison engine of `diff.go`

A shallow embedding of `Equal`, `compareHeaders`, `event.equal` and
`event.UnmarshalJSON`, followed by theorems about them.

Conventions of the embedding

* `time.Duration` is an `int64`.  Durations are integers (`Int`) and every
  addition and subtraction the Go code performs is followed by `wrap64`, the
  two's-complement wrap-around of Go's signed 64-bit arithmetic.
* `encoding/json`, `bufio.Scanner` and `reflect.DeepEqual` are library code.
  A stream is the list of lines its scanner delivers before `Scan` first
  returns false (`Equal` never calls `Err`, so the end of the input, a read
  error and an over-long line all end the stream alike); a line is given by
  the value `encoding/json` decodes its bytes to (`none` when it rejects them).
  A decoded JSON number is a finite `float64`; it is represented by its exact
  rational value, so that Go's `==` on such numbers is equality.
* The conversion `time.Duration(seconds * float64(time.Second))` is a
  parameter `conv` of the decoder and of `Equal`, so that their theorems hold
  for every conversion; `secondsToDuration` is the conversion of the code, the
  `float64` rounding being computed on exact rationals.
* `lineCount` is a natural number: an `int` counter of lines does not reach
  `2 ^ 63`.
-/

namespace AsciinemaDiff

set_option maxRecDepth 8000

/-! ## Machine integers -/

/-- Two's-complement wrap-around of a signed 64-bit result. -/
def wrap64 (x : Int) : Int := (x + 2 ^ 63) % 2 ^ 64 - 2 ^ 63

/-- The integer is representable as an `int64`. -/
def fitsInt64 (x : Int) : Prop := -(2 ^ 63) ≤ x ∧ x < 2 ^ 63

instance (x : Int) : Decidable (fitsInt64 x) := by
  unfold fitsInt64; exact inferInstance

/-! ## JSON values as Go decodes them into `interface{}` -/

/-- A value of Go's untyped JSON representation: `nil`, `bool`, `float64`,
`string`, `[]interface{}` or `map[string]interface{}`.  A map is listed by its
entries in ascending key order, so two maps hold the same entries exactly when
their listings agree entry by entry. -/
inductive JVal where
  | null
  | bool (b : Bool)
  | num (x : Rat)
  | str (s : String)
  | arr (elems : List JVal)
  | obj (members : List (String × JVal))

mutual
/-- The library function `reflect.DeepEqual` on two decoded JSON values: values of
different dynamic types differ, scalars are compared with `==`, slices element
by element, maps entry by entry. -/
def deepEqual : JVal → JVal → Bool
  | .null, .null => true
  | .bool x, .bool y => x == y
  | .num x, .num y => x == y
  | .str x, .str y => x == y
  | .arr xs, .arr ys => deepEqualList xs ys
  | .obj xs, .obj ys => deepEqualMembers xs ys
  | _, _ => false
/-- The slice case of `reflect.DeepEqual`: same length, elements deeply equal. -/
def deepEqualList : List JVal → List JVal → Bool
  | [], [] => true
  | x :: xs, y :: ys => deepEqual x y && deepEqualList xs ys
  | _, _ => false
/-- The map case of `reflect.DeepEqual` on the key-ordered entry listings. -/
def deepEqualMembers : List (String × JVal) → List (String × JVal) → Bool
  | [], [] => true
  | (k, x) :: xs, (l, y) :: ys => k == l && deepEqual x y && deepEqualMembers xs ys
  | _, _ => false
end

/-- A non-nil `map[string]interface{}`. -/
abbrev Header := List (String × JVal)

/-- Map indexing `m[key]`: the stored value, or the nil interface when the key
is missing. -/
def Header.index (m : Header) (key : String) : JVal :=
  (m.lookup key).getD JVal.null

/-- One scanned line: the value its bytes decode to as JSON, `none` when
`encoding/json` rejects the bytes whatever the target (invalid syntax, an empty
line, a number outside the `float64` range). -/
abbrev Line := Option JVal

/-- The errors `Equal` can return: an error of `encoding/json` itself (invalid
syntax, or a JSON value of the wrong kind for the Go target), or one of the
four errors `event.UnmarshalJSON` builds. -/
inductive Err where
  | json
  | invalidEventData
  | invalidTime
  | invalidType
  | invalidData
  deriving DecidableEq, Repr

/-- `json.Unmarshal(line, &h)` for `var h map[string]interface{}`: a JSON object
gives a map, JSON `null` leaves the map nil (`none`), anything else is an
error. -/
def unmarshalHeader : Line → Except Err (Option Header)
  | none => .error .json
  | some .null => .ok none
  | some (.obj m) => .ok (some m)
  | some _ => .error .json

/-- `json.Unmarshal(data, &jsonSlice)` for a `[]interface{}`: a JSON array gives
its elements, JSON `null` gives the nil slice, anything else is an error. -/
def unmarshalSlice : Line → Except Err (List JVal)
  | none => .error .json
  | some .null => .ok []
  | some (.arr elems) => .ok elems
  | some _ => .error .json

/-! ## `diff.go` -/

/-- `type event struct { Time time.Duration; Type string; Data string }`. -/
structure event where
  Time : Int
  Type_ : String
  Data : String
  deriving DecidableEq, Repr

/-- `type equalOpts struct`. -/
structure equalOpts where
  timeTolerance : Int
  headerFields : List String
  deriving DecidableEq, Repr

/-- `type EqualOption func(*equalOpts)`: the mutation, as a function. -/
abbrev EqualOption := equalOpts → equalOpts

/-- `func TimeTolerance(tolerance time.Duration) EqualOption`. -/
def TimeTolerance (tolerance : Int) : EqualOption :=
  fun opts => { opts with timeTolerance := tolerance }

/-- `func CompareHeaderFields(fields ...string) EqualOption`. -/
def CompareHeaderFields (fields : List String) : EqualOption :=
  fun opts => { opts with headerFields := opts.headerFields ++ fields }

/-- The first lines of `Equal`: `opts := new(equalOpts)`, then every option is
applied in order. -/
def applyOptions (opt : List EqualOption) : equalOpts :=
  opt.foldl (fun opts o => o opts) { timeTolerance := 0, headerFields := [] }

/-- The `for _, field := range fields` loop of `compareHeaders`. -/
def compareHeaders.fieldsLoop (a b : Header) : List String → Bool
  | [] => true
  | field :: fields =>
    if !deepEqual (a.index field) (b.index field) then false
    else compareHeaders.fieldsLoop a b fields

/-- `func compareHeaders(a, b map[string]interface{}, fields ...string) bool`;
a nil map is `none`. -/
def compareHeaders (a b : Option Header) (fields : List String) : Bool :=
  if a.isNone && b.isNone then true
  else
    let a := match a with
      | none => []
      | some m => m
    let b := match b with
      | none => []
      | some m => m
    compareHeaders.fieldsLoop a b fields

/-- `func (e *event) equal(other *event, timeTolerance time.Duration) bool`;
a nil pointer is `none`. -/
def event.equal (e other : Option event) (timeTolerance : Int) : Bool :=
  match e, other with
  | none, none => true
  | none, some _ => false
  | some _, none => false
  | some e, some other =>
    if e.Type_ != other.Type_ || e.Data != other.Data then false
    else if other.Time < wrap64 (e.Time - timeTolerance) then false
    else if other.Time > wrap64 (e.Time + timeTolerance) then false
    else true

/-- `func (e *event) UnmarshalJSON(data []byte) error`, returning the decoded
event on success.  `conv` is `time.Duration(seconds * float64(time.Second))`. -/
def event.UnmarshalJSON (conv : Rat → Int) (data : Line) : Except Err event :=
  match unmarshalSlice data with
  | .error err => .error err
  | .ok jsonSlice =>
    match jsonSlice with
    | [x0, x1, x2] =>
      match x0 with
      | .num seconds =>
        match x1 with
        | .str ty =>
          match x2 with
          | .str d => .ok { Time := conv seconds, Type_ := ty, Data := d }
          | _ => .error .invalidData
        | _ => .error .invalidType
      | _ => .error .invalidTime
    | _ => .error .invalidEventData

/-- The body of `Equal` after the options are applied: the `for aScanner.Scan()`
loop and the final `bScanner.Scan()`, with the loop variables `lineCount`,
`lastATime`, `lastBTime` as arguments. -/
def Equal.scan (conv : Rat → Int) (opts : equalOpts) :
    Nat → Int → Int → List Line → List Line → Bool × Option Err
  | _, _, _, [], [] => (true, none)
  | _, _, _, [], _ :: _ => (false, none)
  | _, _, _, _ :: _, [] => (false, none)
  | lineCount, lastATime, lastBTime, aLine :: a, bLine :: b =>
    if lineCount + 1 = 1 then
      match unmarshalHeader aLine with
      | .error err => (false, some err)
      | .ok aHeader =>
        match unmarshalHeader bLine with
        | .error err => (false, some err)
        | .ok bHeader =>
          if !compareHeaders aHeader bHeader opts.headerFields then (false, none)
          else Equal.scan conv opts (lineCount + 1) lastATime lastBTime a b
    else
      match event.UnmarshalJSON conv aLine with
      | .error err => (false, some err)
      | .ok aEvent =>
        match event.UnmarshalJSON conv bLine with
        | .error err => (false, some err)
        | .ok bEvent =>
          let aTimeDiff := wrap64 (aEvent.Time - lastATime)
          let wantBTime := wrap64 (lastBTime + aTimeDiff)
          let wantB : event :=
            { Time := wantBTime, Type_ := aEvent.Type_, Data := aEvent.Data }
          if !event.equal (some wantB) (some bEvent) opts.timeTolerance then (false, none)
          else Equal.scan conv opts (lineCount + 1) aEvent.Time bEvent.Time a b

/-- `func Equal(a, b io.Reader, opt ...EqualOption) (bool, error)`. -/
def Equal (conv : Rat → Int) (a b : List Line) (opt : List EqualOption) :
    Bool × Option Err :=
  Equal.scan conv (applyOptions opt) 0 0 0 a b

/-! ## The conversion `time.Duration(seconds * float64(time.Second))` -/

/-- The fraction `n / d` rounded to the nearest natural number, a tie going to
the even one: the rounding of IEEE 754 arithmetic. -/
def roundHalfEven (n d : Nat) : Nat :=
  if 2 * (n % d) < d then n / d
  else if d < 2 * (n % d) then n / d + 1
  else if n / d % 2 = 0 then n / d
  else n / d + 1

/-- The largest `i ≤ fuel` with `2 ^ i ≤ x`, and 0 when there is none: the
binary logarithm of `x`, rounded down, for `1 ≤ x < 2 ^ (fuel + 1)`. -/
def log2Upto : Nat → Nat → Nat
  | 0, _ => 0
  | fuel + 1, x => if 2 ^ (fuel + 1) ≤ x then fuel + 1 else log2Upto fuel x

/-- The `float64` nearest to the positive fraction `N / D < 2 ^ 64` (53-bit
significand, ties to even), truncated to a natural number.  With
`L = ⌊log2 (2 * N / D)⌋` the fraction lies in `[2 ^ (L - 1), 2 ^ L)`, its
significand is `N / D * 2 ^ (53 - L)` rounded, and the `float64` is that
significand times `2 ^ (L - 53)`. -/
def float64Trunc (N D : Nat) : Nat :=
  roundHalfEven (N * 2 ^ 53) (D * 2 ^ log2Upto 64 (2 * N / D))
    * 2 ^ log2Upto 64 (2 * N / D) / 2 ^ 53

/-- The expression `time.Duration(seconds * float64(time.Second))` of
`event.UnmarshalJSON`, for a `float64` given by its exact rational value: the
`float64` product with `1e9`, rounded to nearest, then truncated toward zero.
A product that does not fit `int64` (Go leaves the result to the
implementation) gives `-2 ^ 63`, as on amd64. -/
def secondsToDuration (seconds : Rat) : Int :=
  if 2 ^ 64 * seconds.den ≤ seconds.num.natAbs * 1000000000 then -(2 ^ 63)
  else if seconds.num < 0 then
    (if fitsInt64 (-(float64Trunc (seconds.num.natAbs * 1000000000) seconds.den : Int))
      then -(float64Trunc (seconds.num.natAbs * 1000000000) seconds.den : Int)
      else -(2 ^ 63))
  else
    (if fitsInt64 (float64Trunc (seconds.num.natAbs * 1000000000) seconds.den : Int)
      then (float64Trunc (seconds.num.natAbs * 1000000000) seconds.den : Int)
      else -(2 ^ 63))

/-! ## Reference notions, in the words of the specification -/

/-- The value of a header at a field name: an absent header is the empty
mapping, and a key that is missing yields null. -/
def headerValue (h : Option Header) (field : String) : JVal :=
  match h with
  | none => JVal.null
  | some m =>
    match m.lookup field with
    | none => JVal.null
    | some v => v

/-- Reference definition of header comparison: every listed field has the same
(structurally equal) value in both headers. -/
def compareHeadersRef (a b : Option Header) (fields : List String) : Prop :=
  ∀ f ∈ fields, headerValue a f = headerValue b f

/-- The error `Equal` gets when it decodes the line at position `k` (counted
from 0): line 0 is decoded as a header mapping, every later line as an event;
`none` when the line decodes. -/
def lineError (conv : Rat → Int) (k : Nat) (l : Line) : Option Err :=
  match k with
  | 0 =>
    match unmarshalHeader l with
    | .error err => some err
    | .ok _ => none
  | _ + 1 =>
    match event.UnmarshalJSON conv l with
    | .error err => some err
    | .ok _ => none

/-- The actual time of the event before position `i` of a stream's events;
`init` (0 at the start of a stream) before the first event. -/
def lastTime (init : Int) (es : List event) : Nat → Int
  | 0 => init
  | i + 1 =>
    match es[i]? with
    | some e => e.Time
    | none => 0

/-- Delta reconstruction in the words of the specification: every event of B
has the type and the data of the event of A at the same position, and its time
lies in the closed interval of radius `t` around
`lastB + (a_i.time - lastA)`, computed in the integers; `x` and `y` are the
baselines before the first event (both 0 for whole streams). -/
def deltasReproduced (t x y : Int) (eas ebs : List event) : Prop :=
  ∀ (i : Nat) (ea eb : event), eas[i]? = some ea → ebs[i]? = some eb →
    eb.Type_ = ea.Type_ ∧ eb.Data = ea.Data ∧
    lastTime y ebs i + (ea.Time - lastTime x eas i) - t ≤ eb.Time ∧
    eb.Time ≤ lastTime y ebs i + (ea.Time - lastTime x eas i) + t

/-- None of the four `int64` results that `Equal` and `event.equal` compute for
an event pair overflows: the delta of A, the expected time of B, and the
expected time minus and plus the tolerance. -/
def noOverflow (t x y : Int) (eas ebs : List event) : Prop :=
  ∀ (i : Nat) (ea : event), eas[i]? = some ea →
    fitsInt64 (ea.Time - lastTime x eas i) ∧
    fitsInt64 (lastTime y ebs i + (ea.Time - lastTime x eas i)) ∧
    fitsInt64 (lastTime y ebs i + (ea.Time - lastTime x eas i) - t) ∧
    fitsInt64 (lastTime y ebs i + (ea.Time - lastTime x eas i) + t)

/-! ## Readers -/

/-- Why a `bufio.Scanner` stopped before the end of its input: the underlying
`Read` failed, or a line is longer than the scanner's buffer allows. -/
inductive ScanError where
  | read
  | tooLong
  deriving DecidableEq, Repr

/-- An `io.Reader` as seen through `bufio.NewScanner`: the lines `Scan`
delivers, and what `Err()` reports once `Scan` has returned false (`none` at
the end of the input). -/
structure Reader where
  lines : List Line
  err : Option ScanError

/-- `Equal` on two readers.  Its body calls `Scan` and `Bytes` on the two
scanners and never `Err`, so it is `Equal` on the delivered lines. -/
def EqualReaders (conv : Rat → Int) (a b : Reader) (opt : List EqualOption) :
    Bool × Option Err :=
  Equal conv a.lines b.lines opt

/-! ## Further reference notions -/

/-- None of the `int64` results that `Equal` and `event.equal` compute on the
event lines `a` and `b`, from the baselines `x` and `y`, overflows: for every
pair of lines that both decode, the delta of A, the expected time of B, and the
expected time minus and plus the tolerance `t`.  Lines after a pair that fails
to decode are not looked at. -/
def durationsFit (conv : Rat → Int) (t : Int) : Int → Int → List Line → List Line → Bool
  | x, y, la :: a, lb :: b =>
    match event.UnmarshalJSON conv la, event.UnmarshalJSON conv lb with
    | .ok ea, .ok eb =>
      decide (fitsInt64 (ea.Time - x)) && decide (fitsInt64 (y + (ea.Time - x))) &&
      decide (fitsInt64 (y + (ea.Time - x) - t)) &&
      decide (fitsInt64 (y + (ea.Time - x) + t)) &&
      durationsFit conv t ea.Time eb.Time a b
    | _, _ => true
  | _, _, _, _ => true

/-- The rational is a `float64` value: a significand below `2 ^ 53` times a
power of two within the range of the format. -/
def isFloat64 (q : Rat) : Prop :=
  ∃ m e : Int, m.natAbs < 2 ^ 53 ∧ -1074 ≤ e ∧ e ≤ 971 ∧ q = (m : Rat) * (2 : Rat) ^ e

/-- Drift construction, stream A: the seconds of event `k` for a tolerance of
`t` ns.  With `l = k * t mod 2 * 10 ^ 9` it is 0 when `l = 0`, and otherwise
the `float64` `-m / 2 ^ 31` with `m` the ceiling of `(l + 1/4) * 2 ^ 31 / 10 ^ 9`,
whose duration is `-l` ns. -/
def driftSecondsA (t k : Nat) : Rat :=
  if (k * t) % 2000000000 = 0 then 0
  else mkRat
    (-((((4 * ((k * t) % 2000000000) + 1) * 2 ^ 29 + 999999999) / 1000000000 : Nat) : Int))
    (2 ^ 31)

/-- Drift construction, stream B: the seconds of event `k`, the even whole
number `2 * ⌊k * t / (2 * 10 ^ 9)⌋`, whose duration is `k * t - l` ns. -/
def driftSecondsB (t k : Nat) : Rat :=
  ((2 * (k * t / 2000000000) : Nat) : Rat)

/-- Drift construction: the line of event `k` of stream A. -/
def driftLineA (t k : Nat) : Line :=
  some (.arr [.num (driftSecondsA t k), .str "o", .str ""])

/-- Drift construction: the line of event `k` of stream B. -/
def driftLineB (t k : Nat) : Line :=
  some (.arr [.num (driftSecondsB t k), .str "o", .str ""])

/-- Drift construction: stream A, an empty header and the events 1 to `n`. -/
def driftStreamA (t n : Nat) : List Line :=
  some (.obj []) :: (List.range' 1 n).map (driftLineA t)

/-- Drift construction: stream B, an empty header and the events 1 to `n`. -/
def driftStreamB (t n : Nat) : List Line :=
  some (.obj []) :: (List.range' 1 n).map (driftLineB t)
/-! ## Machine arithmetic -/

theorem wrap64_of_fits {x : Int} (h : fitsInt64 x) : wrap64 x = x := by
  unfold fitsInt64 at h
  unfold wrap64
  omega

theorem wrap64_fits (x : Int) : fitsInt64 (wrap64 x) := by
  unfold fitsInt64 wrap64
  omega

theorem secondsToDuration_fits (q : Rat) : fitsInt64 (secondsToDuration q) := by
  unfold secondsToDuration
  split
  · decide
  · split
    · split
      · assumption
      · decide
    · split
      · assumption
      · decide

theorem wrap64_add_wrap64_sub (x y : Int) : wrap64 (x + wrap64 (y - x)) = wrap64 y := by
  unfold wrap64
  omega

/-! ## Deep equality -/

mutual
theorem deepEqual_iff_eq : ∀ a b : JVal, deepEqual a b = true ↔ a = b
  | .null, b => by cases b <;> simp [deepEqual]
  | .bool x, b => by cases b <;> simp [deepEqual]
  | .num x, b => by cases b <;> simp [deepEqual]
  | .str x, b => by cases b <;> simp [deepEqual]
  | .arr xs, b => by
    cases b <;> simp [deepEqual]
    exact deepEqualList_iff_eq xs _
  | .obj xs, b => by
    cases b <;> simp [deepEqual]
    exact deepEqualMembers_iff_eq xs _
theorem deepEqualList_iff_eq : ∀ xs ys : List JVal, deepEqualList xs ys = true ↔ xs = ys
  | [], ys => by cases ys <;> simp [deepEqualList]
  | x :: xs, ys => by
    cases ys with
    | nil => simp [deepEqualList]
    | cons y ys =>
      simp [deepEqualList, deepEqual_iff_eq x y, deepEqualList_iff_eq xs ys]
theorem deepEqualMembers_iff_eq :
    ∀ xs ys : List (String × JVal), deepEqualMembers xs ys = true ↔ xs = ys
  | [], ys => by cases ys <;> simp [deepEqualMembers]
  | (k, x) :: xs, ys => by
    cases ys with
    | nil => simp [deepEqualMembers]
    | cons y ys =>
      obtain ⟨l, y⟩ := y
      simp [deepEqualMembers, deepEqual_iff_eq x y, deepEqualMembers_iff_eq xs ys, and_assoc]
end

/-! ## Header comparison -/

theorem index_eq_headerValue (m : Header) (f : String) :
    Header.index m f = headerValue (some m) f := by
  unfold Header.index headerValue
  cases h : m.lookup f <;> simp [h]

theorem index_nil_eq_headerValue (f : String) :
    Header.index [] f = headerValue none f := by
  simp [Header.index, headerValue]

theorem headerValue_some_nil (f : String) :
    headerValue (some []) f = headerValue none f := by
  simp [headerValue]

theorem fieldsLoop_iff (a b : Header) (fields : List String) :
    compareHeaders.fieldsLoop a b fields = true ↔
      ∀ f ∈ fields, Header.index a f = Header.index b f := by
  induction fields with
  | nil => simp [compareHeaders.fieldsLoop]
  | cons f fs ih =>
    unfold compareHeaders.fieldsLoop
    by_cases h2 : a.index f = b.index f
    · have h := (deepEqual_iff_eq _ _).2 h2
      rw [h]
      simp [ih, h2]
    · have h : ¬ deepEqual (a.index f) (b.index f) = true :=
        fun e => h2 ((deepEqual_iff_eq _ _).1 e)
      simp [h, h2]

theorem compareHeaders_iff_ref (a b : Option Header) (fields : List String) :
    compareHeaders a b fields = true ↔ compareHeadersRef a b fields := by
  unfold compareHeadersRef
  cases a with
  | none =>
    cases b with
    | none => simp [compareHeaders]
    | some mb =>
      simp only [compareHeaders, Option.isNone_none, Option.isNone_some, Bool.and_false,
        Bool.false_eq_true, if_false, fieldsLoop_iff, index_eq_headerValue,
        headerValue_some_nil]
  | some ma =>
    cases b with
    | none =>
      simp only [compareHeaders, Option.isNone_none, Option.isNone_some, Bool.false_and,
        Bool.false_eq_true, if_false, fieldsLoop_iff, index_eq_headerValue,
        headerValue_some_nil]
    | some mb =>
      simp only [compareHeaders, Option.isNone_some, Bool.and_false,
        Bool.false_eq_true, if_false, fieldsLoop_iff, index_eq_headerValue]

/-- C5: `compareHeaders` agrees with its reference definition (every listed
field has deeply equal values in both headers, an absent header being the empty
mapping and a missing key null); hence headers that agree with `a` and `b` on
the listed fields, whatever their other keys, give the same result. -/
theorem compareHeaders_refines_reference (a b : Option Header) (fields : List String) :
    (compareHeaders a b fields = true ↔ compareHeadersRef a b fields) ∧
    (∀ a2 b2 : Option Header,
      (∀ f ∈ fields, headerValue a2 f = headerValue a f) →
      (∀ f ∈ fields, headerValue b2 f = headerValue b f) →
      compareHeaders a2 b2 fields = compareHeaders a b fields) := by
  refine ⟨compareHeaders_iff_ref a b fields, ?_⟩
  intro a2 b2 ha hb
  have key : compareHeadersRef a2 b2 fields ↔ compareHeadersRef a b fields := by
    unfold compareHeadersRef
    constructor
    · intro h f hf
      rw [← ha f hf, ← hb f hf]
      exact h f hf
    · intro h f hf
      rw [ha f hf, hb f hf]
      exact h f hf
  have h1 := compareHeaders_iff_ref a2 b2 fields
  have h2 := compareHeaders_iff_ref a b fields
  cases h3 : compareHeaders a2 b2 fields <;> cases h4 : compareHeaders a b fields <;>
    simp_all

/-- Instance of C5 on the headers of the test "equality where it matters":
the key "bar" differs but is not listed. -/
theorem compareHeaders_refines_reference_witness :
    compareHeaders
      (some [("bar", .str "asdf"), ("env", .obj [("a", .str "b"), ("c", .str "d")]),
        ("foo", .str "bar")])
      (some [("bar", .str "jkl;"), ("env", .obj [("a", .str "b"), ("c", .str "d")]),
        ("foo", .str "bar")])
      ["foo", "notpresent", "env"]
    = compareHeaders
      (some [("env", .obj [("a", .str "b"), ("c", .str "d")]), ("foo", .str "bar")])
      (some [("env", .obj [("a", .str "b"), ("c", .str "d")]), ("foo", .str "bar")])
      ["foo", "notpresent", "env"] :=
  (compareHeaders_refines_reference
      (some [("env", .obj [("a", .str "b"), ("c", .str "d")]), ("foo", .str "bar")])
      (some [("env", .obj [("a", .str "b"), ("c", .str "d")]), ("foo", .str "bar")])
      ["foo", "notpresent", "env"]).2
    (some [("bar", .str "asdf"), ("env", .obj [("a", .str "b"), ("c", .str "d")]),
        ("foo", .str "bar")])
    (some [("bar", .str "jkl;"), ("env", .obj [("a", .str "b"), ("c", .str "d")]),
        ("foo", .str "bar")])
    (by simp [headerValue, List.lookup]) (by simp [headerValue, List.lookup])

/-! ## Event comparison -/

/-- C4, as stated, fails: two identical events are reported unequal under the
largest tolerance, because `e.Time + timeTolerance` wraps around. -/
theorem event_equal_interval_counterexample :
    ¬ (event.equal (some ⟨1000, "o", "foo"⟩) (some ⟨1000, "o", "foo"⟩) (2 ^ 63 - 1) = true ↔
        ("o" = "o" ∧ "foo" = "foo" ∧
          (1000 : Int) - (2 ^ 63 - 1) ≤ 1000 ∧ (1000 : Int) ≤ 1000 + (2 ^ 63 - 1))) := by
  decide

/-- C4 (amended): when `e.Time - t` and `e.Time + t` are representable as
`int64`, `e.equal(o, t)` is true exactly when the types are equal, the data are
equal and `e.Time - t ≤ o.Time ≤ e.Time + t`; and a type or data mismatch is
rejected for every tolerance, overflow or not. -/
theorem event_equal_iff_within_tolerance (e o : event) (t : Int) :
    (fitsInt64 (e.Time - t) → fitsInt64 (e.Time + t) →
      (event.equal (some e) (some o) t = true ↔
        e.Type_ = o.Type_ ∧ e.Data = o.Data ∧ e.Time - t ≤ o.Time ∧ o.Time ≤ e.Time + t)) ∧
    ((e.Type_ ≠ o.Type_ ∨ e.Data ≠ o.Data) → event.equal (some e) (some o) t = false) := by
  constructor
  · intro h1 h2
    simp only [event.equal, wrap64_of_fits h1, wrap64_of_fits h2]
    by_cases hT : e.Type_ = o.Type_ <;> by_cases hD : e.Data = o.Data <;>
      simp [hT, hD]
  · intro h
    simp only [event.equal]
    rcases h with h | h <;> simp [h]

/-- Instance of C4 on the test "within tolerance" (times 1000 and 1010,
tolerance 100). -/
theorem event_equal_iff_within_tolerance_witness :
    fitsInt64 (1000 - 100) ∧ fitsInt64 (1000 + 100) ∧
      event.equal (some ⟨1000, "o", "foo"⟩) (some ⟨1010, "o", "foo"⟩) 100 = true :=
  ⟨by decide, by decide,
    ((event_equal_iff_within_tolerance ⟨1000, "o", "foo"⟩ ⟨1010, "o", "foo"⟩ 100).1
      (by decide) (by decide)).2 ⟨rfl, rfl, by decide, by decide⟩⟩

/-- C10: for every tolerance, two absent events are equal, and an absent event
and a present one are unequal, whichever of the two is the receiver. -/
theorem event_equal_absent (e : event) (t : Int) :
    event.equal none none t = true ∧
    event.equal none (some e) t = false ∧
    event.equal (some e) none t = false :=
  ⟨rfl, rfl, rfl⟩

/-! ## The scanning loop, one line pair at a time -/

theorem scan_header_errA {conv : Rat → Int} {opts : equalOpts} {x y : Int} {la lb : Line}
    {a b : List Line} {err : Err} (hA : unmarshalHeader la = .error err) :
    Equal.scan conv opts 0 x y (la :: a) (lb :: b) = (false, some err) := by
  simp [Equal.scan, hA]

theorem scan_header_errB {conv : Rat → Int} {opts : equalOpts} {x y : Int} {la lb : Line}
    {a b : List Line} {ha : Option Header} {err : Err}
    (hA : unmarshalHeader la = .ok ha) (hB : unmarshalHeader lb = .error err) :
    Equal.scan conv opts 0 x y (la :: a) (lb :: b) = (false, some err) := by
  simp [Equal.scan, hA, hB]

theorem scan_header_ok {conv : Rat → Int} {opts : equalOpts} {x y : Int} {la lb : Line}
    {a b : List Line} {ha hb : Option Header}
    (hA : unmarshalHeader la = .ok ha) (hB : unmarshalHeader lb = .ok hb) :
    Equal.scan conv opts 0 x y (la :: a) (lb :: b) =
      if compareHeaders ha hb opts.headerFields = true then Equal.scan conv opts 1 x y a b
      else (false, none) := by
  by_cases h : compareHeaders ha hb opts.headerFields = true <;>
    simp [Equal.scan, hA, hB, h]

theorem scan_event_errA {conv : Rat → Int} {opts : equalOpts} {n : Nat} {x y : Int}
    {la lb : Line} {a b : List Line} {err : Err}
    (hA : event.UnmarshalJSON conv la = .error err) :
    Equal.scan conv opts (n + 1) x y (la :: a) (lb :: b) = (false, some err) := by
  simp [Equal.scan, hA]

theorem scan_event_errB {conv : Rat → Int} {opts : equalOpts} {n : Nat} {x y : Int}
    {la lb : Line} {a b : List Line} {ea : event} {err : Err}
    (hA : event.UnmarshalJSON conv la = .ok ea)
    (hB : event.UnmarshalJSON conv lb = .error err) :
    Equal.scan conv opts (n + 1) x y (la :: a) (lb :: b) = (false, some err) := by
  simp [Equal.scan, hA, hB]

theorem scan_event_ok {conv : Rat → Int} {opts : equalOpts} {n : Nat} {x y : Int}
    {la lb : Line} {a b : List Line} {ea eb : event}
    (hA : event.UnmarshalJSON conv la = .ok ea)
    (hB : event.UnmarshalJSON conv lb = .ok eb) :
    Equal.scan conv opts (n + 1) x y (la :: a) (lb :: b) =
      if event.equal
          (some { Time := wrap64 (y + wrap64 (ea.Time - x)), Type_ := ea.Type_, Data := ea.Data })
          (some eb) opts.timeTolerance = true
      then Equal.scan conv opts (n + 2) ea.Time eb.Time a b
      else (false, none) := by
  by_cases h : event.equal
      (some { Time := wrap64 (y + wrap64 (ea.Time - x)), Type_ := ea.Type_, Data := ea.Data })
      (some eb) opts.timeTolerance = true <;>
    simp [Equal.scan, hA, hB, h]

/-- After the header line the value of `lineCount` no longer matters. -/
theorem scan_succ_eq_one (conv : Rat → Int) (opts : equalOpts) (a : List Line) :
    ∀ (b : List Line) (n : Nat) (x y : Int),
      Equal.scan conv opts (n + 1) x y a b = Equal.scan conv opts 1 x y a b := by
  induction a with
  | nil => intro b n x y; cases b <;> simp [Equal.scan]
  | cons la a ih =>
    intro b n x y
    cases b with
    | nil => simp [Equal.scan]
    | cons lb b =>
      cases hA : event.UnmarshalJSON conv la with
      | error e => rw [scan_event_errA hA, scan_event_errA hA]
      | ok ea =>
        cases hB : event.UnmarshalJSON conv lb with
        | error e => rw [scan_event_errB hA hB, scan_event_errB hA hB]
        | ok eb =>
          rw [scan_event_ok hA hB, scan_event_ok hA hB, ih b (n + 1), ih b (0 + 1)]

/-- A common prefix that compares equal is consumed: the loop continues on the
remaining lines with some baseline times. -/
theorem scan_append_of_true (conv : Rat → Int) (opts : equalOpts) (pa : List Line) :
    ∀ (pb : List Line) (n : Nat) (x y : Int), pa.length = pb.length →
      Equal.scan conv opts n x y pa pb = (true, none) →
      ∃ x2 y2 : Int, ∀ ra rb : List Line,
        Equal.scan conv opts n x y (pa ++ ra) (pb ++ rb) =
          Equal.scan conv opts (n + pa.length) x2 y2 ra rb := by
  induction pa with
  | nil =>
    intro pb n x y hlen _
    cases pb with
    | nil => exact ⟨x, y, fun ra rb => by simp⟩
    | cons lb pb => simp at hlen
  | cons la pa ih =>
    intro pb n x y hlen h
    cases pb with
    | nil => simp at hlen
    | cons lb pb =>
      have hlen2 : pa.length = pb.length := by simpa using hlen
      cases n with
      | zero =>
        cases hA : unmarshalHeader la with
        | error e => rw [scan_header_errA hA] at h; simp at h
        | ok ha =>
          cases hB : unmarshalHeader lb with
          | error e => rw [scan_header_errB hA hB] at h; simp at h
          | ok hb =>
            rw [scan_header_ok hA hB] at h
            by_cases hC : compareHeaders ha hb opts.headerFields = true
            · rw [if_pos hC] at h
              obtain ⟨x2, y2, hrest⟩ := ih pb 1 x y hlen2 h
              refine ⟨x2, y2, fun ra rb => ?_⟩
              rw [List.cons_append, List.cons_append, scan_header_ok hA hB, if_pos hC,
                hrest ra rb]
              simp [Nat.add_comm]
            · rw [if_neg hC] at h; simp at h
      | succ n =>
        cases hA : event.UnmarshalJSON conv la with
        | error e => rw [scan_event_errA hA] at h; simp at h
        | ok ea =>
          cases hB : event.UnmarshalJSON conv lb with
          | error e => rw [scan_event_errB hA hB] at h; simp at h
          | ok eb =>
            rw [scan_event_ok hA hB] at h
            split at h
            · rename_i hC
              obtain ⟨x2, y2, hrest⟩ := ih pb (n + 2) ea.Time eb.Time hlen2 h
              refine ⟨x2, y2, fun ra rb => ?_⟩
              rw [List.cons_append, List.cons_append, scan_event_ok hA hB, if_pos hC,
                hrest ra rb]
              congr 1
              simp only [List.length_cons]
              omega
            · simp at h

/-! ## Stream comparison: lengths, decode errors, headers -/

/-- C3: when the lines present in both streams all decode and compare equal
(`Equal` accepts the two common prefixes) and one stream has further lines,
`Equal` returns `(false, nil)`, whether the longer stream is A or B and
whatever its extra lines hold. -/
theorem Equal_length_mismatch (conv : Rat → Int) (opt : List EqualOption)
    (ca cb extra : List Line) (hlen : ca.length = cb.length) (hextra : extra ≠ [])
    (hcommon : Equal conv ca cb opt = (true, none)) :
    Equal conv (ca ++ extra) cb opt = (false, none) ∧
    Equal conv ca (cb ++ extra) opt = (false, none) := by
  unfold Equal at hcommon ⊢
  obtain ⟨x2, y2, hrest⟩ := scan_append_of_true conv (applyOptions opt) ca cb 0 0 0 hlen hcommon
  obtain ⟨l, extra2, rfl⟩ := List.exists_cons_of_ne_nil hextra
  have h1 := hrest (l :: extra2) []
  have h2 := hrest [] (l :: extra2)
  rw [List.append_nil] at h1 h2
  rw [h1, h2]
  constructor <;> simp [Equal.scan]

/-- Instance of C3: a header and one event against the same header alone, in
both orders. -/
theorem Equal_length_mismatch_witness :
    Equal secondsToDuration
        ([some (.obj [("version", .num 2)])] ++ [some (.arr [.num 1, .str "o", .str "x"])])
        [some (.obj [("version", .num 2)])] [] = (false, none) ∧
    Equal secondsToDuration [some (.obj [("version", .num 2)])]
        ([some (.obj [("version", .num 2)])] ++ [some (.arr [.num 1, .str "o", .str "x"])])
        [] = (false, none) :=
  Equal_length_mismatch secondsToDuration [] [some (.obj [("version", .num 2)])]
    [some (.obj [("version", .num 2)])] [some (.arr [.num 1, .str "o", .str "x"])]
    rfl (by simp) (by decide)

/-- C6, as stated, fails: stream B holds a malformed event line (a 2-element
array) that `Equal` never decodes, because stream A ends first; the result is
`(false, nil)`. -/
theorem Equal_malformed_line_counterexample :
    event.UnmarshalJSON secondsToDuration (some (.arr [.num 1, .str "o"])) = .error .invalidEventData ∧
    Equal secondsToDuration [some (.obj [])] [some (.obj []), some (.arr [.num 1, .str "o"])] []
      = (false, none) :=
  ⟨rfl, by decide⟩

/-- C6 (amended): if both streams have a line at position `pa.length`, the lines
before it all decode and compare equal (`Equal` accepts the two prefixes), and
the line of A or of B at that position fails to decode, then `Equal` returns an
error together with `false`; in particular it does not return `(false, nil)`. -/
theorem Equal_decode_failure_reached (conv : Rat → Int) (opt : List EqualOption)
    (pa pb : List Line) (la lb : Line) (ra rb : List Line)
    (hlen : pa.length = pb.length)
    (hcommon : Equal conv pa pb opt = (true, none))
    (hbad : lineError conv pa.length la ≠ none ∨ lineError conv pa.length lb ≠ none) :
    (∃ err, Equal conv (pa ++ la :: ra) (pb ++ lb :: rb) opt = (false, some err)) ∧
    Equal conv (pa ++ la :: ra) (pb ++ lb :: rb) opt ≠ (false, none) := by
  have key : ∃ err, Equal conv (pa ++ la :: ra) (pb ++ lb :: rb) opt = (false, some err) := by
    unfold Equal at hcommon ⊢
    obtain ⟨x2, y2, hrest⟩ :=
      scan_append_of_true conv (applyOptions opt) pa pb 0 0 0 hlen hcommon
    rw [hrest]
    cases hn : pa.length with
    | zero =>
      rw [hn] at hbad
      simp only [lineError] at hbad
      cases hA : unmarshalHeader la with
      | error e => exact ⟨e, scan_header_errA hA⟩
      | ok ha =>
        cases hB : unmarshalHeader lb with
        | error e => exact ⟨e, scan_header_errB hA hB⟩
        | ok hb => simp [hA, hB] at hbad
    | succ n =>
      rw [hn] at hbad
      simp only [lineError] at hbad
      rw [Nat.zero_add]
      cases hA : event.UnmarshalJSON conv la with
      | error e => exact ⟨e, scan_event_errA hA⟩
      | ok ea =>
        cases hB : event.UnmarshalJSON conv lb with
        | error e => exact ⟨e, scan_event_errB hA hB⟩
        | ok eb => simp [hA, hB] at hbad
  refine ⟨key, ?_⟩
  obtain ⟨err, h⟩ := key
  rw [h]
  simp

/-- Instance of C6: after equal headers, the second line of B is a 2-element
array. -/
theorem Equal_decode_failure_reached_witness :
    ∃ err, Equal secondsToDuration
      ([some (.obj [])] ++ some (.arr [.num 1, .str "o", .str "x"]) :: [])
      ([some (.obj [])] ++ some (.arr [.num 1, .str "o"]) :: []) [] = (false, some err) :=
  (Equal_decode_failure_reached secondsToDuration [] [some (.obj [])] [some (.obj [])]
    (some (.arr [.num 1, .str "o", .str "x"])) (some (.arr [.num 1, .str "o"])) [] []
    rfl (by decide) (Or.inr (by decide))).1

/-- C7: when the first lines of both streams decode as headers that differ, by
deep equality, on a field selected by the options, `Equal` returns
`(false, nil)`, for every tolerance and whatever the later lines hold. -/
theorem Equal_header_mismatch (conv : Rat → Int) (opt : List EqualOption)
    (la lb : Line) (ra rb : List Line) (ha hb : Option Header)
    (hA : unmarshalHeader la = .ok ha) (hB : unmarshalHeader lb = .ok hb)
    (hdiff : ∃ f ∈ (applyOptions opt).headerFields,
      deepEqual (headerValue ha f) (headerValue hb f) = false) :
    Equal conv (la :: ra) (lb :: rb) opt = (false, none) := by
  unfold Equal
  rw [scan_header_ok hA hB]
  have hC : ¬ compareHeaders ha hb (applyOptions opt).headerFields = true := by
    intro hC
    obtain ⟨f, hf, hne⟩ := hdiff
    have := (compareHeaders_iff_ref ha hb _).1 hC f hf
    rw [(deepEqual_iff_eq _ _).2 this] at hne
    simp at hne
  rw [if_neg hC]

/-- Instance of C7, after the test "different headers": the timestamps differ
and "timestamp" is compared, the event lines are identical. -/
theorem Equal_header_mismatch_witness :
    Equal secondsToDuration
      (some (.obj [("timestamp", .num 1)]) :: [some (.arr [.num 1, .str "o", .str "x"])])
      (some (.obj [("timestamp", .num 2)]) :: [some (.arr [.num 1, .str "o", .str "x"])])
      [TimeTolerance 50000000, CompareHeaderFields ["timestamp"]] = (false, none) :=
  Equal_header_mismatch secondsToDuration [TimeTolerance 50000000, CompareHeaderFields ["timestamp"]]
    (some (.obj [("timestamp", .num 1)])) (some (.obj [("timestamp", .num 2)]))
    [some (.arr [.num 1, .str "o", .str "x"])] [some (.arr [.num 1, .str "o", .str "x"])]
    (some [("timestamp", .num 1)]) (some [("timestamp", .num 2)]) rfl rfl
    ⟨"timestamp", by decide, by decide⟩

theorem applyOptions_timeTolerance_headerFields (ts : List Int) :
    ∀ o : equalOpts,
      (List.foldl (fun opts (f : EqualOption) => f opts) o (ts.map TimeTolerance)).headerFields
        = o.headerFields := by
  induction ts with
  | nil => intro o; rfl
  | cons t ts ih =>
    intro o
    simp only [List.map_cons, List.foldl_cons]
    rw [ih]
    rfl

/-- C9: with no header field selected, `compareHeaders` is true for all headers;
no field is selected when only `TimeTolerance` options (or none) are given; and
then replacing the header line of either stream by any other line that decodes
as a header leaves the result of `Equal` unchanged. -/
theorem Equal_ignores_headers_without_fields :
    (∀ a b : Option Header, compareHeaders a b [] = true) ∧
    (∀ ts : List Int, (applyOptions (ts.map TimeTolerance)).headerFields = []) ∧
    (∀ (conv : Rat → Int) (opt : List EqualOption) (la lb la2 lb2 : Line)
        (ra rb : List Line) (ha hb ha2 hb2 : Option Header),
      (applyOptions opt).headerFields = [] →
      unmarshalHeader la = .ok ha → unmarshalHeader lb = .ok hb →
      unmarshalHeader la2 = .ok ha2 → unmarshalHeader lb2 = .ok hb2 →
      Equal conv (la2 :: ra) (lb2 :: rb) opt = Equal conv (la :: ra) (lb :: rb) opt) := by
  have hnil : ∀ a b : Option Header, compareHeaders a b [] = true := by
    intro a b
    rw [compareHeaders_iff_ref]
    intro f hf
    simp at hf
  refine ⟨hnil, ?_, ?_⟩
  · intro ts
    unfold applyOptions
    rw [applyOptions_timeTolerance_headerFields]
  · intro conv opt la lb la2 lb2 ra rb ha hb ha2 hb2 hf hA hB hA2 hB2
    unfold Equal
    rw [scan_header_ok hA hB, scan_header_ok hA2 hB2, hf, hnil, hnil]

/-- Instance of C9: two different headers in place of two equal ones, one event
each, no option. -/
theorem Equal_ignores_headers_without_fields_witness :
    Equal secondsToDuration
      (some (.obj [("timestamp", .num 1)]) :: [some (.arr [.num 1, .str "o", .str "x"])])
      (some .null :: [some (.arr [.num 1, .str "o", .str "x"])]) []
    = Equal secondsToDuration
      (some (.obj []) :: [some (.arr [.num 1, .str "o", .str "x"])])
      (some (.obj []) :: [some (.arr [.num 1, .str "o", .str "x"])]) [] :=
  Equal_ignores_headers_without_fields.2.2 secondsToDuration []
    (some (.obj [])) (some (.obj [])) (some (.obj [("timestamp", .num 1)])) (some .null)
    [some (.arr [.num 1, .str "o", .str "x"])] [some (.arr [.num 1, .str "o", .str "x"])]
    (some []) (some []) (some [("timestamp", .num 1)]) none rfl rfl rfl rfl rfl

/-! ## Delta reconstruction -/

theorem event_equal_iff_of_fits (e o : event) (t : Int)
    (h1 : fitsInt64 (e.Time - t)) (h2 : fitsInt64 (e.Time + t)) :
    event.equal (some e) (some o) t = true ↔
      e.Type_ = o.Type_ ∧ e.Data = o.Data ∧ e.Time - t ≤ o.Time ∧ o.Time ≤ e.Time + t := by
  simp only [event.equal, wrap64_of_fits h1, wrap64_of_fits h2]
  by_cases hT : e.Type_ = o.Type_ <;> by_cases hD : e.Data = o.Data <;>
    simp [hT, hD]

theorem lastTime_cons_succ (init : Int) (e : event) (es : List event) (i : Nat) :
    lastTime init (e :: es) (i + 1) = lastTime e.Time es i := by
  cases i with
  | zero => simp [lastTime]
  | succ j => simp [lastTime]

theorem deltasReproduced_cons (t x y : Int) (ea eb : event) (eas ebs : List event) :
    deltasReproduced t x y (ea :: eas) (eb :: ebs) ↔
      (eb.Type_ = ea.Type_ ∧ eb.Data = ea.Data ∧
        y + (ea.Time - x) - t ≤ eb.Time ∧ eb.Time ≤ y + (ea.Time - x) + t) ∧
      deltasReproduced t ea.Time eb.Time eas ebs := by
  unfold deltasReproduced
  constructor
  · intro h
    refine ⟨?_, ?_⟩
    · simpa [lastTime] using h 0 ea eb (by simp) (by simp)
    · intro i e1 e2 h1 h2
      have := h (i + 1) e1 e2 (by simpa using h1) (by simpa using h2)
      simpa only [lastTime_cons_succ] using this
  · rintro ⟨h0, hrest⟩ i e1 e2 h1 h2
    cases i with
    | zero =>
      simp at h1 h2
      subst h1 h2
      simpa [lastTime] using h0
    | succ j =>
      simp only [lastTime_cons_succ]
      exact hrest j e1 e2 (by simpa using h1) (by simpa using h2)

theorem noOverflow_cons (t x y : Int) (ea eb : event) (eas ebs : List event) :
    noOverflow t x y (ea :: eas) (eb :: ebs) ↔
      (fitsInt64 (ea.Time - x) ∧ fitsInt64 (y + (ea.Time - x)) ∧
        fitsInt64 (y + (ea.Time - x) - t) ∧ fitsInt64 (y + (ea.Time - x) + t)) ∧
      noOverflow t ea.Time eb.Time eas ebs := by
  unfold noOverflow
  constructor
  · intro h
    refine ⟨?_, ?_⟩
    · simpa [lastTime] using h 0 ea (by simp)
    · intro i e1 h1
      have := h (i + 1) e1 (by simpa using h1)
      simpa only [lastTime_cons_succ] using this
  · rintro ⟨h0, hrest⟩ i e1 h1
    cases i with
    | zero =>
      simp at h1
      subst h1
      simpa [lastTime] using h0
    | succ j =>
      simp only [lastTime_cons_succ]
      exact hrest j e1 (by simpa using h1)

/-- The event loop on two streams of decodable event lines of the same length,
when nothing overflows: the verdict is the delta-reconstruction condition. -/
theorem scan_events_of_fits (conv : Rat → Int) (opts : equalOpts) (eas : List event) :
    ∀ (ebs : List event) (ra rb : List Line) (n : Nat) (x y : Int),
      ra.map (event.UnmarshalJSON conv) = eas.map Except.ok →
      rb.map (event.UnmarshalJSON conv) = ebs.map Except.ok →
      eas.length = ebs.length →
      noOverflow opts.timeTolerance x y eas ebs →
      (deltasReproduced opts.timeTolerance x y eas ebs →
        Equal.scan conv opts (n + 1) x y ra rb = (true, none)) ∧
      (¬ deltasReproduced opts.timeTolerance x y eas ebs →
        Equal.scan conv opts (n + 1) x y ra rb = (false, none)) := by
  induction eas with
  | nil =>
    intro ebs ra rb n x y hra hrb hlen _
    cases ebs with
    | cons eb ebs => simp at hlen
    | nil =>
      simp only [List.map_nil, List.map_eq_nil_iff] at hra hrb
      subst hra hrb
      refine ⟨fun _ => by simp [Equal.scan], fun h => ?_⟩
      exact absurd (fun i ea eb h1 _ => by simp at h1) h
  | cons ea eas ih =>
    intro ebs ra rb n x y hra hrb hlen hfit
    cases ebs with
    | nil => simp at hlen
    | cons eb ebs =>
      cases ra with
      | nil => simp at hra
      | cons la ra =>
        cases rb with
        | nil => simp at hrb
        | cons lb rb =>
          simp only [List.map_cons, List.cons.injEq] at hra hrb
          obtain ⟨hA, hra⟩ := hra
          obtain ⟨hB, hrb⟩ := hrb
          have hlen2 : eas.length = ebs.length := by simpa using hlen
          rw [noOverflow_cons] at hfit
          obtain ⟨⟨f1, f2, f3, f4⟩, hfit2⟩ := hfit
          obtain ⟨ih1, ih2⟩ := ih ebs ra rb (n + 1) ea.Time eb.Time hra hrb hlen2 hfit2
          have hiff := event_equal_iff_of_fits
            { Time := y + (ea.Time - x), Type_ := ea.Type_, Data := ea.Data } eb
            opts.timeTolerance f3 f4
          simp only at hiff
          rw [scan_event_ok hA hB, wrap64_of_fits f1, wrap64_of_fits f2, deltasReproduced_cons]
          constructor
          · rintro ⟨⟨h1, h2, h3, h4⟩, hrest⟩
            rw [if_pos (hiff.2 ⟨h1.symm, h2.symm, h3, h4⟩)]
            exact ih1 hrest
          · intro hneg
            by_cases hE : event.equal
                (some { Time := y + (ea.Time - x), Type_ := ea.Type_, Data := ea.Data })
                (some eb) opts.timeTolerance = true
            · rw [if_pos hE]
              have h0 := hiff.1 hE
              apply ih2
              intro hrest
              exact hneg ⟨⟨h0.1.symm, h0.2.1.symm, h0.2.2.1, h0.2.2.2⟩, hrest⟩
            · rw [if_neg hE]

/-- C1, as stated, fails: one event compared with itself under the largest
tolerance satisfies the interval condition, yet `Equal` returns false (the
upper bound `wantB.Time + timeTolerance` wraps around). -/
theorem Equal_deltas_counterexample :
    [some (JVal.arr [.num 1, .str "o", .str "x"])].map (event.UnmarshalJSON secondsToDuration)
      = [⟨1000000000, "o", "x"⟩].map Except.ok ∧
    deltasReproduced (2 ^ 63 - 1) 0 0 [⟨1000000000, "o", "x"⟩] [⟨1000000000, "o", "x"⟩] ∧
    Equal secondsToDuration
      [some (.obj []), some (.arr [.num 1, .str "o", .str "x"])]
      [some (.obj []), some (.arr [.num 1, .str "o", .str "x"])]
      [TimeTolerance (2 ^ 63 - 1)] = (false, none) := by
  refine ⟨rfl, ?_, by rfl⟩
  rw [deltasReproduced_cons]
  refine ⟨by decide, ?_⟩
  intro i ea eb h1
  simp at h1

/-- C1 (amended): for two streams with the same number of lines, whose lines
all decode and whose headers compare equal on the selected fields, and for
which none of the `int64` results computed per event (the delta of A, the
expected time of B, that time minus and plus the tolerance) overflows, `Equal`
returns `(true, nil)` when every event of B has the type and data of the event
of A at its position and a time within the tolerance of
`lastB + (a_i.time - lastA)`, the baselines being the actual previous times
(0 before the first event); otherwise it returns `(false, nil)`. -/
theorem Equal_iff_deltas_reproduced (conv : Rat → Int) (opt : List EqualOption)
    (la lb : Line) (ra rb : List Line) (ha hb : Option Header) (eas ebs : List event)
    (hA : unmarshalHeader la = .ok ha) (hB : unmarshalHeader lb = .ok hb)
    (hC : compareHeaders ha hb (applyOptions opt).headerFields = true)
    (hra : ra.map (event.UnmarshalJSON conv) = eas.map Except.ok)
    (hrb : rb.map (event.UnmarshalJSON conv) = ebs.map Except.ok)
    (hlen : eas.length = ebs.length)
    (hfit : noOverflow (applyOptions opt).timeTolerance 0 0 eas ebs) :
    (deltasReproduced (applyOptions opt).timeTolerance 0 0 eas ebs →
      Equal conv (la :: ra) (lb :: rb) opt = (true, none)) ∧
    (¬ deltasReproduced (applyOptions opt).timeTolerance 0 0 eas ebs →
      Equal conv (la :: ra) (lb :: rb) opt = (false, none)) := by
  unfold Equal
  rw [scan_header_ok hA hB, if_pos hC]
  exact scan_events_of_fits conv (applyOptions opt) eas ebs ra rb 0 0 0 hra hrb hlen hfit

/-- Instance of C1: the events of B (at 2 s and 4 s) repeat the deltas of the
events of A (at 1 s and 3 s) within a tolerance of one second. -/
theorem Equal_iff_deltas_reproduced_witness :
    Equal secondsToDuration
      (some (.obj []) ::
        [some (.arr [.num 1, .str "o", .str "x"]), some (.arr [.num 3, .str "o", .str "y"])])
      (some (.obj []) ::
        [some (.arr [.num 2, .str "o", .str "x"]), some (.arr [.num 4, .str "o", .str "y"])])
      [TimeTolerance 1000000000] = (true, none) :=
  (Equal_iff_deltas_reproduced secondsToDuration [TimeTolerance 1000000000]
    (some (.obj [])) (some (.obj []))
    [some (.arr [.num 1, .str "o", .str "x"]), some (.arr [.num 3, .str "o", .str "y"])]
    [some (.arr [.num 2, .str "o", .str "x"]), some (.arr [.num 4, .str "o", .str "y"])]
    (some []) (some [])
    [⟨1000000000, "o", "x"⟩, ⟨3000000000, "o", "y"⟩]
    [⟨2000000000, "o", "x"⟩, ⟨4000000000, "o", "y"⟩]
    rfl rfl rfl rfl rfl rfl
    (by
      rw [noOverflow_cons, noOverflow_cons]
      exact ⟨by decide, by decide, fun i ea h => by simp at h⟩)).1
    (by
      rw [deltasReproduced_cons, deltasReproduced_cons]
      exact ⟨by decide, by decide, fun i ea eb h => by simp at h⟩)

/-! ## Shifted streams and zero tolerance -/

theorem wrap64_shift (x c e : Int) : wrap64 (x + c + wrap64 (e - x)) = wrap64 (e + c) := by
  unfold wrap64
  omega

/-- The event loop on two streams whose events agree up to one time offset `c`,
started from baselines that already differ by `c`. -/
theorem scan_shifted (conv : Rat → Int) (opts : equalOpts) (c : Int)
    (ht : 0 ≤ opts.timeTolerance) (eas : List event) :
    ∀ (ebs : List event) (ra rb : List Line) (n : Nat) (x : Int),
      ra.map (event.UnmarshalJSON conv) = eas.map Except.ok →
      rb.map (event.UnmarshalJSON conv) = ebs.map Except.ok →
      eas.length = ebs.length →
      (∀ (i : Nat) (ea eb : event), eas[i]? = some ea → ebs[i]? = some eb →
        eb.Type_ = ea.Type_ ∧ eb.Data = ea.Data ∧ eb.Time = ea.Time + c) →
      (∀ e ∈ ebs, fitsInt64 (e.Time - opts.timeTolerance) ∧
        fitsInt64 (e.Time + opts.timeTolerance)) →
      Equal.scan conv opts (n + 1) x (x + c) ra rb = (true, none) := by
  induction eas with
  | nil =>
    intro ebs ra rb n x hra hrb hlen _ _
    cases ebs with
    | cons eb ebs => simp at hlen
    | nil =>
      simp only [List.map_nil, List.map_eq_nil_iff] at hra hrb
      subst hra hrb
      simp [Equal.scan]
  | cons ea eas ih =>
    intro ebs ra rb n x hra hrb hlen hshift hfit
    cases ebs with
    | nil => simp at hlen
    | cons eb ebs =>
      cases ra with
      | nil => simp at hra
      | cons la ra =>
        cases rb with
        | nil => simp at hrb
        | cons lb rb =>
          simp only [List.map_cons, List.cons.injEq] at hra hrb
          obtain ⟨hA, hra⟩ := hra
          obtain ⟨hB, hrb⟩ := hrb
          have hlen2 : eas.length = ebs.length := by simpa using hlen
          obtain ⟨hT, hD, hTime⟩ := hshift 0 ea eb (by simp) (by simp)
          obtain ⟨f1, f2⟩ := hfit eb (by simp)
          have f0 : fitsInt64 eb.Time := by
            unfold fitsInt64 at f1 f2 ⊢
            omega
          have hwant : wrap64 (x + c + wrap64 (ea.Time - x)) = eb.Time := by
            rw [wrap64_shift, ← hTime, wrap64_of_fits f0]
          have hE : event.equal
              (some { Time := wrap64 (x + c + wrap64 (ea.Time - x)), Type_ := ea.Type_,
                      Data := ea.Data })
              (some eb) opts.timeTolerance = true := by
            rw [hwant]
            refine (event_equal_iff_of_fits
              { Time := eb.Time, Type_ := ea.Type_, Data := ea.Data } eb _ f1 f2).2
              ⟨hT.symm, hD.symm, ?_, ?_⟩
            · show eb.Time - opts.timeTolerance ≤ eb.Time
              omega
            · show eb.Time ≤ eb.Time + opts.timeTolerance
              omega
          rw [scan_event_ok hA hB, if_pos hE, hTime]
          apply ih ebs ra rb (n + 1) ea.Time hra hrb hlen2
          · intro i e1 e2 h1 h2
            exact hshift (i + 1) e1 e2 (by simpa using h1) (by simpa using h2)
          · intro e he
            exact hfit e (by simp [he])

/-- C2, as stated, fails.  First, stream B is stream A shifted by one second
(events at 2 s and 3 s against 1 s and 2 s, identical deltas): `Equal` with
tolerance 0 returns false, because the first event is compared against the
baseline 0 on both sides.  Second, a stream compared with itself under the
largest tolerance is rejected, because the upper bound wraps around. -/
theorem Equal_shift_counterexample :
    [some (JVal.arr [.num 1, .str "o", .str "x"]),
        some (JVal.arr [.num 2, .str "o", .str "y"])].map (event.UnmarshalJSON secondsToDuration)
      = [⟨1000000000, "o", "x"⟩, ⟨2000000000, "o", "y"⟩].map Except.ok ∧
    [some (JVal.arr [.num 2, .str "o", .str "x"]),
        some (JVal.arr [.num 3, .str "o", .str "y"])].map (event.UnmarshalJSON secondsToDuration)
      = [⟨2000000000, "o", "x"⟩, ⟨3000000000, "o", "y"⟩].map Except.ok ∧
    Equal secondsToDuration
      [some (.obj []), some (.arr [.num 1, .str "o", .str "x"]),
        some (.arr [.num 2, .str "o", .str "y"])]
      [some (.obj []), some (.arr [.num 2, .str "o", .str "x"]),
        some (.arr [.num 3, .str "o", .str "y"])]
      [TimeTolerance 0] = (false, none) ∧
    Equal secondsToDuration
      [some (.obj []), some (.arr [.num 1, .str "o", .str "x"]),
        some (.arr [.num 2, .str "o", .str "y"])]
      [some (.obj []), some (.arr [.num 1, .str "o", .str "x"]),
        some (.arr [.num 2, .str "o", .str "y"])]
      [TimeTolerance (2 ^ 63 - 1)] = (false, none) :=
  ⟨rfl, rfl, by rfl, by rfl⟩

/-- C2 (amended): for a tolerance `t ≥ 0` and two streams with identical
headers, the same number of events, identical types and data, and every time of
B equal to the time of A at the same position plus one constant offset `c`,
`Equal` returns `(true, nil)` provided the offset is at most the tolerance in
absolute value (the first events are compared against the baseline 0 on both
sides) and no event time minus or plus the tolerance overflows `int64`. -/
theorem Equal_shifted_within_tolerance (conv : Rat → Int) (opt : List EqualOption)
    (la lb : Line) (ra rb : List Line) (h : Option Header) (eas ebs : List event) (c : Int)
    (ht : 0 ≤ (applyOptions opt).timeTolerance)
    (hA : unmarshalHeader la = .ok h) (hB : unmarshalHeader lb = .ok h)
    (hra : ra.map (event.UnmarshalJSON conv) = eas.map Except.ok)
    (hrb : rb.map (event.UnmarshalJSON conv) = ebs.map Except.ok)
    (hlen : eas.length = ebs.length)
    (hshift : ∀ (i : Nat) (ea eb : event), eas[i]? = some ea → ebs[i]? = some eb →
      eb.Type_ = ea.Type_ ∧ eb.Data = ea.Data ∧ eb.Time = ea.Time + c)
    (hc : -(applyOptions opt).timeTolerance ≤ c ∧ c ≤ (applyOptions opt).timeTolerance)
    (hfit : ∀ e ∈ eas ++ ebs, fitsInt64 (e.Time - (applyOptions opt).timeTolerance) ∧
      fitsInt64 (e.Time + (applyOptions opt).timeTolerance)) :
    Equal conv (la :: ra) (lb :: rb) opt = (true, none) := by
  unfold Equal
  have hC : compareHeaders h h (applyOptions opt).headerFields = true :=
    (compareHeaders_iff_ref h h _).2 (fun _ _ => rfl)
  rw [scan_header_ok hA hB, if_pos hC]
  cases eas with
  | nil =>
    cases ebs with
    | cons eb ebs => simp at hlen
    | nil =>
      simp only [List.map_nil, List.map_eq_nil_iff] at hra hrb
      subst hra hrb
      simp [Equal.scan]
  | cons ea eas =>
    cases ebs with
    | nil => simp at hlen
    | cons eb ebs =>
      cases ra with
      | nil => simp at hra
      | cons la2 ra =>
        cases rb with
        | nil => simp at hrb
        | cons lb2 rb =>
          simp only [List.map_cons, List.cons.injEq] at hra hrb
          obtain ⟨hA2, hra⟩ := hra
          obtain ⟨hB2, hrb⟩ := hrb
          have hlen2 : eas.length = ebs.length := by simpa using hlen
          obtain ⟨hT, hD, hTime⟩ := hshift 0 ea eb (by simp) (by simp)
          obtain ⟨f1, f2⟩ := hfit ea (by simp)
          have f0 : fitsInt64 ea.Time := by
            unfold fitsInt64 at f1 f2 ⊢
            omega
          have hwant : wrap64 (0 + wrap64 (ea.Time - 0)) = ea.Time := by
            rw [Int.sub_zero, Int.zero_add, wrap64_of_fits f0, wrap64_of_fits f0]
          have hE : event.equal
              (some { Time := wrap64 (0 + wrap64 (ea.Time - 0)), Type_ := ea.Type_,
                      Data := ea.Data })
              (some eb) (applyOptions opt).timeTolerance = true := by
            rw [hwant]
            refine (event_equal_iff_of_fits
              { Time := ea.Time, Type_ := ea.Type_, Data := ea.Data } eb _ f1 f2).2
              ⟨hT.symm, hD.symm, ?_, ?_⟩
            · show ea.Time - (applyOptions opt).timeTolerance ≤ eb.Time
              omega
            · show eb.Time ≤ ea.Time + (applyOptions opt).timeTolerance
              omega
          rw [scan_event_ok hA2 hB2, if_pos hE, hTime]
          apply scan_shifted conv (applyOptions opt) c ht eas ebs ra rb 1 ea.Time hra hrb hlen2
          · intro i e1 e2 h1 h2
            exact hshift (i + 1) e1 e2 (by simpa using h1) (by simpa using h2)
          · intro e he
            exact hfit e (by simp [he])

/-- Instance of C2: B is A shifted by half a second, under a tolerance of one
second. -/
theorem Equal_shifted_within_tolerance_witness :
    Equal secondsToDuration
      (some (.obj [("version", .num 2)]) ::
        [some (.arr [.num 1, .str "o", .str "x"]), some (.arr [.num 2, .str "o", .str "y"])])
      (some (.obj [("version", .num 2)]) ::
        [some (.arr [.num (mkRat 3 2), .str "o", .str "x"]),
          some (.arr [.num (mkRat 5 2), .str "o", .str "y"])])
      [TimeTolerance 1000000000] = (true, none) :=
  Equal_shifted_within_tolerance secondsToDuration [TimeTolerance 1000000000]
    (some (.obj [("version", .num 2)])) (some (.obj [("version", .num 2)]))
    [some (.arr [.num 1, .str "o", .str "x"]), some (.arr [.num 2, .str "o", .str "y"])]
    [some (.arr [.num (mkRat 3 2), .str "o", .str "x"]),
      some (.arr [.num (mkRat 5 2), .str "o", .str "y"])]
    (some [("version", .num 2)])
    [⟨1000000000, "o", "x"⟩, ⟨2000000000, "o", "y"⟩]
    [⟨1500000000, "o", "x"⟩, ⟨2500000000, "o", "y"⟩]
    500000000
    (by decide) rfl rfl rfl rfl rfl
    (by
      intro i ea eb h1 h2
      match i with
      | 0 => simp at h1 h2; subst h1 h2; decide
      | 1 => simp at h1 h2; subst h1 h2; decide
      | j + 2 => simp at h1)
    (by decide)
    (by
      intro e he
      simp at he
      rcases he with rfl | rfl | rfl | rfl <;> decide)

theorem scan_of_fst_true (conv : Rat → Int) (opts : equalOpts) (a : List Line) :
    ∀ (b : List Line) (n : Nat) (x y : Int),
      (Equal.scan conv opts n x y a b).1 = true →
      Equal.scan conv opts n x y a b = (true, none) := by
  induction a with
  | nil => intro b n x y h; cases b <;> simp_all [Equal.scan]
  | cons la a ih =>
    intro b n x y h
    cases b with
    | nil => simp [Equal.scan] at h
    | cons lb b =>
      cases n with
      | zero =>
        cases hA : unmarshalHeader la with
        | error e => rw [scan_header_errA hA] at h; simp at h
        | ok ha =>
          cases hB : unmarshalHeader lb with
          | error e => rw [scan_header_errB hA hB] at h; simp at h
          | ok hb =>
            rw [scan_header_ok hA hB] at h ⊢
            split at h
            · rename_i hC
              rw [if_pos hC]
              exact ih b 1 x y h
            · simp at h
      | succ n =>
        cases hA : event.UnmarshalJSON conv la with
        | error e => rw [scan_event_errA hA] at h; simp at h
        | ok ea =>
          cases hB : event.UnmarshalJSON conv lb with
          | error e => rw [scan_event_errB hA hB] at h; simp at h
          | ok eb =>
            rw [scan_event_ok hA hB] at h ⊢
            split at h
            · rename_i hC
              rw [if_pos hC]
              exact ih b (n + 2) ea.Time eb.Time h
            · simp at h

theorem UnmarshalJSON_time_fits {conv : Rat → Int} (hconv : ∀ q, fitsInt64 (conv q))
    {l : Line} {e : event} (h : event.UnmarshalJSON conv l = .ok e) : fitsInt64 e.Time := by
  unfold event.UnmarshalJSON at h
  split at h
  · simp at h
  · split at h
    · split at h
      · split at h
        · split at h
          · simp only [Except.ok.injEq] at h
            rw [← h]
            exact hconv _
          · simp at h
        · simp at h
      · simp at h
    · simp at h

/-- The event loop under tolerance 0, started from equal baselines: acceptance
forces both streams to decode to one and the same list of events. -/
theorem scan_zero_tolerance (conv : Rat → Int) (hconv : ∀ q, fitsInt64 (conv q))
    (opts : equalOpts) (h0 : opts.timeTolerance = 0) (a : List Line) :
    ∀ (b : List Line) (n : Nat) (x : Int),
      Equal.scan conv opts (n + 1) x x a b = (true, none) →
      ∃ es : List event, a.map (event.UnmarshalJSON conv) = es.map Except.ok ∧
        b.map (event.UnmarshalJSON conv) = es.map Except.ok := by
  induction a with
  | nil =>
    intro b n x h
    cases b with
    | nil => exact ⟨[], rfl, rfl⟩
    | cons lb b => simp [Equal.scan] at h
  | cons la a ih =>
    intro b n x h
    cases b with
    | nil => simp [Equal.scan] at h
    | cons lb b =>
      cases hA : event.UnmarshalJSON conv la with
      | error e => rw [scan_event_errA hA] at h; simp at h
      | ok ea =>
        cases hB : event.UnmarshalJSON conv lb with
        | error e => rw [scan_event_errB hA hB] at h; simp at h
        | ok eb =>
          rw [scan_event_ok hA hB] at h
          split at h
          · rename_i hE
            have fa : fitsInt64 ea.Time := UnmarshalJSON_time_fits hconv hA
            have hwant : wrap64 (x + wrap64 (ea.Time - x)) = ea.Time := by
              rw [wrap64_add_wrap64_sub, wrap64_of_fits fa]
            rw [hwant, h0] at hE
            have hiff := (event_equal_iff_of_fits
              { Time := ea.Time, Type_ := ea.Type_, Data := ea.Data } eb 0
              (by simpa using fa) (by simpa using fa)).1 hE
            obtain ⟨hT, hD, h1, h2⟩ := hiff
            simp only [Int.sub_zero, Int.add_zero] at h1 h2
            have hTime : eb.Time = ea.Time := Int.le_antisymm h2 h1
            have heq : eb = ea := by
              cases ea; cases eb
              simp only at hT hD hTime
              simp [hT, hD, hTime]
            subst heq
            obtain ⟨es, hes1, hes2⟩ := ih b (n + 1) eb.Time h
            exact ⟨eb :: es, by simp [hA, hes1], by simp [hB, hes2]⟩
          · simp at h

theorem applyOptions_headerFields_timeTolerance (fs : List (List String)) :
    ∀ o : equalOpts,
      (List.foldl (fun opts (f : EqualOption) => f opts) o
        (fs.map CompareHeaderFields)).timeTolerance = o.timeTolerance := by
  induction fs with
  | nil => intro o; rfl
  | cons f fs ih =>
    intro o
    simp only [List.map_cons, List.foldl_cons]
    rw [ih]
    rfl

/-- C8: under tolerance 0 (the tolerance in force when only
`CompareHeaderFields` options, or none, are given), if `Equal` returns true then
the event lines of both streams decode to one and the same list of events, so
every corresponding pair has exactly the same time, type and data; hence if
some corresponding pair of events differs in time, `Equal` returns false.
Event times are `int64` values (`hconv`). -/
theorem Equal_zero_tolerance_exact (conv : Rat → Int) (hconv : ∀ q, fitsInt64 (conv q))
    (opt : List EqualOption) (a b : List Line)
    (h0 : (applyOptions opt).timeTolerance = 0) :
    ((Equal conv a b opt).1 = true →
      ∃ es : List event, a.tail.map (event.UnmarshalJSON conv) = es.map Except.ok ∧
        b.tail.map (event.UnmarshalJSON conv) = es.map Except.ok) ∧
    (∀ (i : Nat) (la lb : Line) (ea eb : event),
      a.tail[i]? = some la → b.tail[i]? = some lb →
      event.UnmarshalJSON conv la = .ok ea → event.UnmarshalJSON conv lb = .ok eb →
      ea.Time ≠ eb.Time → (Equal conv a b opt).1 = false) ∧
    (∀ fs : List (List String), (applyOptions (fs.map CompareHeaderFields)).timeTolerance = 0) := by
  have part1 : (Equal conv a b opt).1 = true →
      ∃ es : List event, a.tail.map (event.UnmarshalJSON conv) = es.map Except.ok ∧
        b.tail.map (event.UnmarshalJSON conv) = es.map Except.ok := by
    intro h
    unfold Equal at h
    have h2 := scan_of_fst_true conv _ a b 0 0 0 h
    cases a with
    | nil =>
      cases b with
      | nil => exact ⟨[], rfl, rfl⟩
      | cons lb b => simp [Equal.scan] at h2
    | cons la a =>
      cases b with
      | nil => simp [Equal.scan] at h2
      | cons lb b =>
        cases hA : unmarshalHeader la with
        | error e => rw [scan_header_errA hA] at h2; simp at h2
        | ok ha =>
          cases hB : unmarshalHeader lb with
          | error e => rw [scan_header_errB hA hB] at h2; simp at h2
          | ok hb =>
            rw [scan_header_ok hA hB] at h2
            split at h2
            · exact scan_zero_tolerance conv hconv _ h0 a b 0 0 h2
            · simp at h2
  refine ⟨part1, ?_, ?_⟩
  · intro i la lb ea eb hla hlb hA hB hne
    cases hE : (Equal conv a b opt).1 with
    | false => rfl
    | true =>
      exfalso
      obtain ⟨es, h1, h2⟩ := part1 hE
      have g1 : (a.tail.map (event.UnmarshalJSON conv))[i]? = some (.ok ea) := by
        rw [List.getElem?_map, hla]; simp [hA]
      have g2 : (b.tail.map (event.UnmarshalJSON conv))[i]? = some (.ok eb) := by
        rw [List.getElem?_map, hlb]; simp [hB]
      rw [h1, List.getElem?_map] at g1
      rw [h2, List.getElem?_map] at g2
      cases hes : es[i]? with
      | none => rw [hes] at g1; simp at g1
      | some e =>
        rw [hes] at g1 g2
        simp only [Option.map_some', Option.some.injEq, Except.ok.injEq] at g1 g2
        exact hne (by rw [← g1, ← g2])
  · intro fs
    unfold applyOptions
    rw [applyOptions_headerFields_timeTolerance]

/-- Instance of C8: with no option, an event at 1 s against an event at 2 s
makes `Equal` return false. -/
theorem Equal_zero_tolerance_exact_witness :
    (Equal secondsToDuration
      [some (.obj []), some (.arr [.num 1, .str "o", .str "x"])]
      [some (.obj []), some (.arr [.num 2, .str "o", .str "x"])] []).1 = false :=
  (Equal_zero_tolerance_exact secondsToDuration secondsToDuration_fits []
    [some (.obj []), some (.arr [.num 1, .str "o", .str "x"])]
    [some (.obj []), some (.arr [.num 2, .str "o", .str "x"])] rfl).2.1
    0 (some (.arr [.num 1, .str "o", .str "x"])) (some (.arr [.num 2, .str "o", .str "x"]))
    ⟨1000000000, "o", "x"⟩ ⟨2000000000, "o", "x"⟩ rfl rfl rfl rfl (by decide)

/-! ## The `float64` conversion -/

theorem roundHalfEven_mul_right (a b c : Nat) (hc : 0 < c) :
    roundHalfEven (a * c) (b * c) = roundHalfEven a b := by
  unfold roundHalfEven
  rw [Nat.mul_div_mul_right a b hc, Nat.mul_mod_mul_right]
  have h1 : 2 * (a % b * c) < b * c ↔ 2 * (a % b) < b := by
    rw [← Nat.mul_assoc]
    exact Nat.mul_lt_mul_right hc
  have h2 : b * c < 2 * (a % b * c) ↔ b < 2 * (a % b) := by
    rw [← Nat.mul_assoc]
    exact Nat.mul_lt_mul_right hc
  simp only [h1, h2]

theorem roundHalfEven_one (n : Nat) : roundHalfEven n 1 = n := by
  simp [roundHalfEven, Nat.mod_one]

theorem roundHalfEven_ge (n d : Nat) : n / d ≤ roundHalfEven n d := by
  unfold roundHalfEven
  split
  · exact Nat.le_refl _
  · split
    · exact Nat.le_succ _
    · split
      · exact Nat.le_refl _
      · exact Nat.le_succ _

theorem roundHalfEven_le_succ (n d : Nat) : roundHalfEven n d ≤ n / d + 1 := by
  unfold roundHalfEven
  split
  · exact Nat.le_succ _
  · split
    · exact Nat.le_refl _
    · split
      · exact Nat.le_succ _
      · exact Nat.le_refl _

/-- Rounding never passes the next natural number above the fraction. -/
theorem roundHalfEven_mul_le (n d c : Nat) (hd : 0 < d) (h : n ≤ c * d) :
    roundHalfEven n d ≤ c := by
  have hdiv : n / d ≤ c := by
    rw [Nat.div_le_iff_le_mul_add_pred hd]
    have : c * d = d * c := Nat.mul_comm _ _
    omega
  by_cases hr : n % d = 0
  · have : roundHalfEven n d = n / d := by
      unfold roundHalfEven
      rw [hr]
      simp [hd]
    omega
  · have hlt : n / d < c := by
      rw [Nat.div_lt_iff_lt_mul hd]
      have h1 := Nat.div_add_mod n d
      have h2 : n ≠ c * d := by
        intro he
        rw [he, Nat.mul_mod_left] at hr
        exact hr rfl
      omega
    have := roundHalfEven_le_succ n d
    omega

theorem log2Upto_le (fuel x j : Nat) (h : x < 2 ^ (j + 1)) : log2Upto fuel x ≤ j := by
  induction fuel with
  | zero => simp [log2Upto]
  | succ f ih =>
    unfold log2Upto
    split
    · rename_i hle
      have : 2 ^ (f + 1) < 2 ^ (j + 1) := Nat.lt_of_le_of_lt hle h
      have := (Nat.pow_lt_pow_iff_right (by decide : 1 < 2)).1 this
      omega
    · exact ih

/-- Below `2 ^ 53` the exponent is at most 0: the significand is the fraction
scaled by `2 ^ k` and rounded, and the truncation divides it by `2 ^ k`. -/
theorem float64Trunc_eq (N D : Nat) (hD : 0 < D) (h : N < 2 ^ 53 * D) :
    ∃ k : Nat, k + log2Upto 64 (2 * N / D) = 53 ∧
      float64Trunc N D = roundHalfEven (N * 2 ^ k) D / 2 ^ k := by
  have hL : log2Upto 64 (2 * N / D) ≤ 53 := by
    apply log2Upto_le
    rw [Nat.div_lt_iff_lt_mul hD]
    omega
  refine ⟨53 - log2Upto 64 (2 * N / D), by omega, ?_⟩
  unfold float64Trunc
  generalize log2Upto 64 (2 * N / D) = L at hL ⊢
  have hpow : 2 ^ 53 = 2 ^ (53 - L) * 2 ^ L := by
    rw [← Nat.pow_add]
    congr 1
    omega
  have hL0 : 0 < 2 ^ L := Nat.pow_pos (by decide)
  rw [hpow, ← Nat.mul_assoc, roundHalfEven_mul_right _ _ _ hL0,
    Nat.mul_div_mul_right _ _ hL0]

/-- Below `2 ^ 53` the conversion stays between the floor and the ceiling of
the fraction. -/
theorem float64Trunc_bounds (N D : Nat) (hD : 0 < D) (h : N < 2 ^ 53 * D) :
    N / D ≤ float64Trunc N D ∧ float64Trunc N D * D < N + D := by
  obtain ⟨k, _, hk⟩ := float64Trunc_eq N D hD h
  rw [hk]
  have hP : 0 < 2 ^ k := Nat.pow_pos (by decide)
  constructor
  · rw [Nat.le_div_iff_mul_le hP]
    refine Nat.le_trans ?_ (roundHalfEven_ge _ _)
    rw [Nat.le_div_iff_mul_le hD]
    calc N / D * 2 ^ k * D = N / D * D * 2 ^ k := by ring
      _ ≤ N * 2 ^ k := Nat.mul_le_mul_right _ (Nat.div_mul_le_self N D)
  · -- the ceiling `C` of `N / D`
    have hC : N ≤ ((N + D - 1) / D) * D := by
      have h1 := Nat.div_add_mod (N + D - 1) D
      have h2 := Nat.mod_lt (N + D - 1) hD
      have : D * ((N + D - 1) / D) = (N + D - 1) / D * D := Nat.mul_comm _ _
      omega
    have hCD : ((N + D - 1) / D) * D < N + D := by
      have := Nat.div_mul_le_self (N + D - 1) D
      omega
    have hm : roundHalfEven (N * 2 ^ k) D ≤ ((N + D - 1) / D) * 2 ^ k := by
      apply roundHalfEven_mul_le _ _ _ hD
      calc N * 2 ^ k ≤ (N + D - 1) / D * D * 2 ^ k := Nat.mul_le_mul_right _ hC
        _ = (N + D - 1) / D * 2 ^ k * D := by ring
    have hq : roundHalfEven (N * 2 ^ k) D / 2 ^ k ≤ (N + D - 1) / D := by
      rw [Nat.div_le_iff_le_mul_add_pred hP]
      have : 2 ^ k * ((N + D - 1) / D) = (N + D - 1) / D * 2 ^ k := Nat.mul_comm _ _
      omega
    calc roundHalfEven (N * 2 ^ k) D / 2 ^ k * D ≤ (N + D - 1) / D * D :=
          Nat.mul_le_mul_right _ hq
      _ < N + D := hCD

/-- A fraction in the middle half of `[v, v + 1)`, below `2 ^ 50`, converts to
`v`. -/
theorem float64Trunc_eq_of_mid (N D v : Nat) (hD : 0 < D)
    (h1 : (4 * v + 1) * D ≤ 4 * N) (h2 : 4 * N < (4 * v + 3) * D) (hv : v < 2 ^ 50) :
    float64Trunc N D = v := by
  have hN : N < 2 ^ 51 * D := by
    have : (4 * v + 3) * D ≤ (4 * 2 ^ 50) * D := Nat.mul_le_mul_right _ (by omega)
    have e : (4 * 2 ^ 50) * D = 4 * (2 ^ 50 * D) := by ring
    omega
  obtain ⟨k, hkL, hk⟩ := float64Trunc_eq N D hD (by omega)
  have hL : log2Upto 64 (2 * N / D) ≤ 51 := by
    apply log2Upto_le
    rw [Nat.div_lt_iff_lt_mul hD]
    omega
  obtain ⟨j, rfl⟩ : ∃ j, k = j + 2 := ⟨k - 2, by omega⟩
  rw [hk]
  have hP : 0 < 2 ^ j := Nat.pow_pos (by decide)
  have e4 : 2 ^ (j + 2) = 4 * 2 ^ j := by rw [Nat.pow_add]; ring
  rw [e4]
  have hlow : v * (4 * 2 ^ j) ≤ roundHalfEven (N * (4 * 2 ^ j)) D := by
    refine Nat.le_trans ?_ (roundHalfEven_ge _ _)
    rw [Nat.le_div_iff_mul_le hD]
    have : 4 * v * D * 2 ^ j ≤ 4 * N * 2 ^ j :=
      Nat.mul_le_mul_right _ (by nlinarith)
    calc v * (4 * 2 ^ j) * D = 4 * v * D * 2 ^ j := by ring
      _ ≤ 4 * N * 2 ^ j := this
      _ = N * (4 * 2 ^ j) := by ring
  have hup : roundHalfEven (N * (4 * 2 ^ j)) D ≤ (4 * v + 3) * 2 ^ j := by
    apply roundHalfEven_mul_le _ _ _ hD
    calc N * (4 * 2 ^ j) = 4 * N * 2 ^ j := by ring
      _ ≤ (4 * v + 3) * D * 2 ^ j := Nat.mul_le_mul_right _ (Nat.le_of_lt h2)
      _ = (4 * v + 3) * 2 ^ j * D := by ring
  apply Nat.div_eq_of_lt_le
  · exact hlow
  · have : (4 * v + 3) * 2 ^ j < (v + 1) * (4 * 2 ^ j) := by nlinarith
    omega

/-- A whole number below `2 ^ 63` that is a multiple of `2 ^ 10` is a `float64`
and converts to itself. -/
theorem float64Trunc_exact (N : Nat) (hN : N < 2 ^ 63) (hdiv : 2 ^ 10 ∣ N) :
    float64Trunc N 1 = N := by
  have hL : log2Upto 64 (2 * N / 1) ≤ 63 := by
    apply log2Upto_le
    rw [Nat.div_one]
    omega
  unfold float64Trunc
  generalize log2Upto 64 (2 * N / 1) = L at hL ⊢
  have hL0 : 0 < 2 ^ L := Nat.pow_pos (by decide)
  by_cases h53 : L ≤ 53
  · have hpow : 2 ^ 53 = 2 ^ (53 - L) * 2 ^ L := by
      rw [← Nat.pow_add]
      congr 1
      omega
    rw [hpow, ← Nat.mul_assoc, roundHalfEven_mul_right _ _ _ hL0, roundHalfEven_one,
      Nat.mul_div_mul_right _ _ hL0, Nat.mul_div_cancel _ (Nat.pow_pos (by decide))]
  · have hj : 2 ^ (L - 53) ∣ N :=
      Nat.dvd_trans (Nat.pow_dvd_pow 2 (by omega)) hdiv
    obtain ⟨c, hc⟩ := hj
    have hpow : 2 ^ L = 2 ^ (L - 53) * 2 ^ 53 := by
      rw [← Nat.pow_add]
      congr 1
      omega
    have e1 : N * 2 ^ 53 = c * 2 ^ L := by rw [hc, hpow]; ring
    rw [e1, roundHalfEven_mul_right _ _ _ hL0, roundHalfEven_one, hpow, ← Nat.mul_assoc,
      Nat.mul_div_cancel _ (Nat.pow_pos (by decide)), hc]
    ring

theorem secondsToDuration_of_nonneg (q : Rat) (hq : 0 ≤ q.num)
    (h : float64Trunc (q.num.natAbs * 1000000000) q.den < 2 ^ 63)
    (hN : q.num.natAbs * 1000000000 < 2 ^ 64 * q.den) :
    secondsToDuration q = (float64Trunc (q.num.natAbs * 1000000000) q.den : Int) := by
  unfold secondsToDuration
  rw [if_neg (by omega), if_neg (by omega), if_pos]
  unfold fitsInt64
  omega

theorem secondsToDuration_of_neg (q : Rat) (hq : q.num < 0)
    (h : float64Trunc (q.num.natAbs * 1000000000) q.den ≤ 2 ^ 63)
    (hN : q.num.natAbs * 1000000000 < 2 ^ 64 * q.den) :
    secondsToDuration q = -(float64Trunc (q.num.natAbs * 1000000000) q.den : Int) := by
  unfold secondsToDuration
  rw [if_neg (by omega), if_pos hq, if_pos]
  unfold fitsInt64
  omega

/-- Below `2 ^ 53` the duration is within one nanosecond of the exact product:
`|Time * den - num * 10 ^ 9| < den` for `seconds = num / den`. -/
theorem secondsToDuration_near (q : Rat)
    (h : q.num.natAbs * 1000000000 < 2 ^ 53 * q.den) :
    |secondsToDuration q * (q.den : Int) - q.num * 1000000000| < (q.den : Int) := by
  have hD : 0 < q.den := q.den_pos
  obtain ⟨hlo, hhi⟩ := float64Trunc_bounds _ _ hD h
  have hlo2 : q.num.natAbs * 1000000000
      < float64Trunc (q.num.natAbs * 1000000000) q.den * q.den + q.den := by
    have h1 := Nat.div_add_mod (q.num.natAbs * 1000000000) q.den
    have h2 := Nat.mod_lt (q.num.natAbs * 1000000000) hD
    have h3 : q.num.natAbs * 1000000000 / q.den * q.den
        ≤ float64Trunc (q.num.natAbs * 1000000000) q.den * q.den :=
      Nat.mul_le_mul_right _ hlo
    have h4 : q.den * (q.num.natAbs * 1000000000 / q.den)
        = q.num.natAbs * 1000000000 / q.den * q.den := Nat.mul_comm _ _
    omega
  have hmag : float64Trunc (q.num.natAbs * 1000000000) q.den < 2 ^ 63 := by
    by_contra hc
    have : 2 ^ 63 * q.den ≤ float64Trunc (q.num.natAbs * 1000000000) q.den * q.den :=
      Nat.mul_le_mul_right _ (by omega)
    omega
  have hhiZ : (float64Trunc (q.num.natAbs * 1000000000) q.den : Int) * (q.den : Int)
      < (q.num.natAbs : Int) * 1000000000 + (q.den : Int) := by exact_mod_cast hhi
  have hloZ : (q.num.natAbs : Int) * 1000000000
      < (float64Trunc (q.num.natAbs * 1000000000) q.den : Int) * (q.den : Int) + (q.den : Int) := by
    exact_mod_cast hlo2
  rw [abs_lt]
  by_cases hs : q.num < 0
  · rw [secondsToDuration_of_neg q hs (by omega) (by omega)]
    have habs : (q.num.natAbs : Int) = -q.num := by omega
    rw [habs] at hhiZ hloZ
    constructor <;> nlinarith
  · rw [secondsToDuration_of_nonneg q (by omega) hmag (by omega)]
    have habs : (q.num.natAbs : Int) = q.num := by omega
    rw [habs] at hhiZ hloZ
    constructor <;> nlinarith

theorem num_den_of_mkRat (a : Int) (b : Nat) (hb : 0 < b) :
    (mkRat a b).num * (b : Int) = a * ((mkRat a b).den : Int) := by
  have h1 : Rat.divInt (mkRat a b).num ((mkRat a b).den : Int) = Rat.divInt a (b : Int) := by
    rw [Rat.num_divInt_den, Rat.mkRat_eq_divInt]
  have hd0 : ((mkRat a b).den : Int) ≠ 0 := by
    have := (mkRat a b).den_pos
    omega
  have hb0 : (b : Int) ≠ 0 := by omega
  exact (Rat.divInt_eq_iff hd0 hb0).1 h1

/-- The `float64` below zero built from `a / b`, with `a * 10 ^ 9 / b` in the
middle half of `[v, v + 1)`: the duration is `-v`. -/
theorem secondsToDuration_neg_mid (a b v : Nat) (hb : 0 < b) (ha : 0 < a)
    (h1 : (4 * v + 1) * b ≤ 4 * (a * 1000000000))
    (h2 : 4 * (a * 1000000000) < (4 * v + 3) * b) (hv : v < 2 ^ 50) :
    secondsToDuration (mkRat (-(a : Int)) b) = -(v : Int) := by
  have hrel := num_den_of_mkRat (-(a : Int)) b hb
  have hD : 0 < (mkRat (-(a : Int)) b).den := Rat.den_pos _
  generalize hn : (mkRat (-(a : Int)) b).num = n at hrel
  generalize hd : (mkRat (-(a : Int)) b).den = d at hrel hD
  have hneg : n < 0 := by
    by_contra hc
    have h3 : 0 ≤ n * (b : Int) := mul_nonneg (by omega) (by omega)
    have h4 : (0 : Int) < (a : Int) * (d : Int) := mul_pos (by omega) (by omega)
    have h5 : -(a : Int) * (d : Int) = -((a : Int) * (d : Int)) := by ring
    omega
  have hnat : n.natAbs * b = a * d := by
    have h3 : ((n.natAbs : Int)) = -n := by omega
    have h4 : (n.natAbs : Int) * (b : Int) = (a : Int) * (d : Int) := by
      rw [h3]
      linarith [hrel]
    exact_mod_cast h4
  have k1 : (4 * v + 1) * d ≤ 4 * (n.natAbs * 1000000000) := by
    have : (4 * v + 1) * d * b ≤ 4 * (n.natAbs * 1000000000) * b := by
      calc (4 * v + 1) * d * b = (4 * v + 1) * b * d := by ring
        _ ≤ 4 * (a * 1000000000) * d := Nat.mul_le_mul_right _ h1
        _ = 4 * (a * d * 1000000000) := by ring
        _ = 4 * (n.natAbs * b * 1000000000) := by rw [hnat]
        _ = 4 * (n.natAbs * 1000000000) * b := by ring
    exact Nat.le_of_mul_le_mul_right this hb
  have k2 : 4 * (n.natAbs * 1000000000) < (4 * v + 3) * d := by
    have : 4 * (n.natAbs * 1000000000) * b < (4 * v + 3) * d * b := by
      calc 4 * (n.natAbs * 1000000000) * b = 4 * (n.natAbs * b * 1000000000) := by ring
        _ = 4 * (a * d * 1000000000) := by rw [hnat]
        _ = 4 * (a * 1000000000) * d := by ring
        _ < (4 * v + 3) * b * d := Nat.mul_lt_mul_of_pos_right h2 hD
        _ = (4 * v + 3) * d * b := by ring
    exact Nat.lt_of_mul_lt_mul_right this
  have hval := float64Trunc_eq_of_mid _ _ v hD k1 k2 hv
  have hq1 : (mkRat (-(a : Int)) b).num < 0 := by rw [hn]; exact hneg
  have hbig : n.natAbs * 1000000000 < 2 ^ 64 * d := by
    have : (4 * v + 3) * d ≤ (4 * 2 ^ 50) * d := Nat.mul_le_mul_right _ (by omega)
    have e : (4 * 2 ^ 50) * d = 4 * (2 ^ 50 * d) := by ring
    omega
  rw [secondsToDuration_of_neg _ hq1 (by rw [hn, hd, hval]; omega) (by rw [hn, hd]; exact hbig),
    hn, hd, hval]

/-- A whole number of seconds `s` whose nanoseconds are a multiple of `2 ^ 10`
below `2 ^ 63` converts exactly. -/
theorem secondsToDuration_natCast (s : Nat) (h : s * 1000000000 < 2 ^ 63)
    (hdiv : 2 ^ 10 ∣ s * 1000000000) :
    secondsToDuration (s : Rat) = (s : Int) * 1000000000 := by
  have hnum : ((s : Rat)).num = (s : Int) := Rat.num_natCast s
  have hden : ((s : Rat)).den = 1 := Rat.den_natCast s
  have hval := float64Trunc_exact _ h hdiv
  generalize (s : Rat) = q at hnum hden
  have habs : q.num.natAbs = s := by rw [hnum]; exact Int.natAbs_ofNat s
  have h1 : 0 ≤ q.num := by rw [hnum]; exact Int.ofNat_nonneg s
  have h2 : float64Trunc (q.num.natAbs * 1000000000) q.den < 2 ^ 63 := by
    rw [habs, hden, hval]; exact h
  have h3 : q.num.natAbs * 1000000000 < 2 ^ 64 * q.den := by
    rw [habs, hden]
    clear hval hdiv h2
    omega
  rw [secondsToDuration_of_nonneg q h1 h2 h3, habs, hden, hval]
  push_cast
  rfl

/-- Below `2 ^ 53` ns the duration differs from `seconds * 10 ^ 9` by less than
one nanosecond. -/
theorem secondsToDuration_near_rat (q : Rat) (h : |q * 1000000000| < 2 ^ 53) :
    |((secondsToDuration q : Int) : Rat) - q * 1000000000| < 1 := by
  have hd : (0 : Rat) < (q.den : Rat) := by exact_mod_cast q.den_pos
  have hq : (q.num : Rat) = q * (q.den : Rat) := (Rat.mul_den_eq_num q).symm
  have hN : q.num.natAbs * 1000000000 < 2 ^ 53 * q.den := by
    have h1 : |q * 1000000000| * (q.den : Rat) < 2 ^ 53 * (q.den : Rat) :=
      mul_lt_mul_of_pos_right h hd
    have h2 : |q * 1000000000| * (q.den : Rat) = |(q.num : Rat)| * 1000000000 := by
      rw [hq, abs_mul, abs_mul, abs_of_pos hd]
      norm_num
      ring
    rw [h2, ← Int.cast_abs, Int.abs_eq_natAbs] at h1
    have h3 : ((q.num.natAbs * 1000000000 : Nat) : Rat) < ((2 ^ 53 * q.den : Nat) : Rat) := by
      push_cast
      exact_mod_cast h1
    exact_mod_cast h3
  have hnear := secondsToDuration_near q hN
  have hcast : |((secondsToDuration q * (q.den : Int) - q.num * 1000000000 : Int) : Rat)|
      < (q.den : Rat) := by
    rw [← Int.cast_abs]
    exact_mod_cast hnear
  have e : ((secondsToDuration q : Int) : Rat) - q * 1000000000
      = ((secondsToDuration q * (q.den : Int) - q.num * 1000000000 : Int) : Rat) / (q.den : Rat) := by
    rw [eq_div_iff (ne_of_gt hd)]
    push_cast
    rw [hq]
    ring
  rw [e, abs_div, abs_of_pos hd, div_lt_one hd]
  exact hcast

/-- When `seconds * 10 ^ 9` is a whole number below `2 ^ 53` in absolute value,
the duration is that number. -/
theorem secondsToDuration_exact (q : Rat) (n : Int) (hn : q * 1000000000 = (n : Rat))
    (h : |q * 1000000000| < 2 ^ 53) : secondsToDuration q = n := by
  have h1 := secondsToDuration_near_rat q h
  rw [hn, ← Int.cast_sub, ← Int.cast_abs] at h1
  have h2 : |secondsToDuration q - n| < 1 := by exact_mod_cast h1
  rw [abs_lt] at h2
  omega

/-! ## Reflexivity of header comparison, decoding, field sets -/

/-- C11: header comparison is reflexive: for every header `a` (absent, empty or
holding any values) and every field list, `compareHeaders(a, a, fields)` is
true. -/
theorem compareHeaders_refl (a : Option Header) (fields : List String) :
    compareHeaders a a fields = true :=
  (compareHeaders_iff_ref a a fields).2 (fun _ _ => rfl)

theorem UnmarshalJSON_ok_iff (conv : Rat → Int) (data : Line) (e : event) :
    event.UnmarshalJSON conv data = .ok e ↔
      ∃ (seconds : Rat) (ty d : String),
        data = some (.arr [.num seconds, .str ty, .str d]) ∧
        e = { Time := conv seconds, Type_ := ty, Data := d } := by
  constructor
  · intro h
    unfold event.UnmarshalJSON at h
    split at h
    · simp at h
    · rename_i jsonSlice hs
      split at h
      · rename_i x0 x1 x2
        split at h
        · rename_i seconds
          split at h
          · rename_i ty
            split at h
            · rename_i d
              simp only [Except.ok.injEq] at h
              refine ⟨seconds, ty, d, ?_, h.symm⟩
              unfold unmarshalSlice at hs
              split at hs <;> simp at hs
              subst hs
              rfl
            · simp at h
          · simp at h
        · simp at h
      · simp at h
  · rintro ⟨seconds, ty, d, rfl, rfl⟩
    rfl

/-- C12, as stated, fails: `Time` is not `seconds * 10 ^ 9`.  For the
`float64` nearest to 1.001 the decoder gives 1000999999 ns, although the exact
product lies within half a nanosecond of 1001000000; for the `float64` nearest
to 0.29 it gives 290000000 ns, above the exact product; and for 10 ^ 10 seconds
the product 10 ^ 19 is no `int64` at all. -/
theorem UnmarshalJSON_scaling_counterexample :
    (event.UnmarshalJSON secondsToDuration
        (some (.arr [.num (mkRat 2254051613498933 2251799813685248), .str "o", .str "x"]))
      = .ok ⟨1000999999, "o", "x"⟩ ∧
      ((1000999999 : Int) : Rat) ≠ mkRat 2254051613498933 2251799813685248 * 1000000000 ∧
      |mkRat 2254051613498933 2251799813685248 * 1000000000 - 1001000000| < 1 / 2) ∧
    (event.UnmarshalJSON secondsToDuration
        (some (.arr [.num (mkRat 5224175567749775 18014398509481984), .str "o", .str "x"]))
      = .ok ⟨290000000, "o", "x"⟩ ∧
      mkRat 5224175567749775 18014398509481984 * 1000000000 < ((290000000 : Int) : Rat)) ∧
    (∃ e : event, event.UnmarshalJSON secondsToDuration
        (some (.arr [.num 10000000000, .str "o", .str "x"])) = .ok e ∧
      ((e.Time : Int) : Rat) ≠ 10000000000 * 1000000000) := by
  refine ⟨⟨(UnmarshalJSON_ok_iff _ _ _).2 ⟨_, _, _, rfl, by decide⟩, ?_, ?_⟩,
    ⟨(UnmarshalJSON_ok_iff _ _ _).2 ⟨_, _, _, rfl, by decide⟩, ?_⟩,
    ⟨⟨secondsToDuration 10000000000, "o", "x"⟩, rfl, ?_⟩⟩
  · rw [Rat.mkRat_eq_div]; norm_num
  · rw [Rat.mkRat_eq_div, abs_lt]; norm_num
  · rw [Rat.mkRat_eq_div]; norm_num
  · have h := secondsToDuration_fits 10000000000
    unfold fitsInt64 at h
    intro hc
    have h2 : (secondsToDuration 10000000000 : Int) = 10000000000 * 1000000000 := by
      exact_mod_cast hc
    omega

/-- C12 (amended): `event.UnmarshalJSON` succeeds exactly on a line that decodes
to a sequence of exactly 3 values, a number followed by two strings; then `Type`
is element 1 and `Data` element 2, unchanged, and `Time` is the `float64`
product of element 0 with `10 ^ 9`, rounded to nearest and truncated toward
zero to an `int64`: when `|seconds * 10 ^ 9| < 2 ^ 53` it differs from
`seconds * 10 ^ 9` by less than one nanosecond and equals it when that product
is a whole number.  On every other line the decoder returns an error. -/
theorem UnmarshalJSON_succeeds_iff_triple (data : Line) :
    (∀ e : event, event.UnmarshalJSON secondsToDuration data = .ok e ↔
      ∃ (seconds : Rat) (ty d : String),
        data = some (.arr [.num seconds, .str ty, .str d]) ∧
        e = { Time := secondsToDuration seconds, Type_ := ty, Data := d }) ∧
    (∀ seconds : Rat, |seconds * 1000000000| < 2 ^ 53 →
      |((secondsToDuration seconds : Int) : Rat) - seconds * 1000000000| < 1 ∧
      ∀ n : Int, seconds * 1000000000 = (n : Rat) → secondsToDuration seconds = n) ∧
    (∀ seconds : Rat, fitsInt64 (secondsToDuration seconds)) ∧
    ((¬ ∃ (seconds : Rat) (ty d : String),
        data = some (.arr [.num seconds, .str ty, .str d])) →
      ∃ err, event.UnmarshalJSON secondsToDuration data = .error err) := by
  refine ⟨UnmarshalJSON_ok_iff secondsToDuration data, ?_, secondsToDuration_fits, ?_⟩
  · intro seconds h
    exact ⟨secondsToDuration_near_rat seconds h,
      fun n hn => secondsToDuration_exact seconds n hn h⟩
  · intro hno
    cases h : event.UnmarshalJSON secondsToDuration data with
    | error err => exact ⟨err, rfl⟩
    | ok e =>
      obtain ⟨s, ty, d, hd, _⟩ := (UnmarshalJSON_ok_iff secondsToDuration data e).1 h
      exact absurd ⟨s, ty, d, hd⟩ hno

/-- Instance of C12 on the line of `Test_event_UnmarshalJSON`,
`[1.184334, "o", "\u001b[?1034h$ "]`, the number being the `float64` nearest to
1.184334: the decoder succeeds with `Time` 1184334000 ns. -/
theorem UnmarshalJSON_succeeds_iff_triple_witness :
    event.UnmarshalJSON secondsToDuration
        (some (.arr [.num (mkRat 5333766161082209 4503599627370496), .str "o",
          .str "\x1b[?1034h$ "]))
      = .ok ⟨1184334000, "o", "\x1b[?1034h$ "⟩ :=
  ((UnmarshalJSON_succeeds_iff_triple
      (some (.arr [.num (mkRat 5333766161082209 4503599627370496), .str "o",
        .str "\x1b[?1034h$ "]))).1 ⟨1184334000, "o", "\x1b[?1034h$ "⟩).2
    ⟨mkRat 5333766161082209 4503599627370496, "o", "\x1b[?1034h$ ", rfl, by decide⟩

theorem compareHeaders_congr_fields (a b : Option Header) (f1 f2 : List String)
    (h : ∀ x, x ∈ f1 ↔ x ∈ f2) : compareHeaders a b f1 = compareHeaders a b f2 := by
  have h1 := compareHeaders_iff_ref a b f1
  have h2 := compareHeaders_iff_ref a b f2
  have key : compareHeadersRef a b f1 ↔ compareHeadersRef a b f2 := by
    unfold compareHeadersRef
    constructor
    · intro hr f hf; exact hr f ((h f).2 hf)
    · intro hr f hf; exact hr f ((h f).1 hf)
  cases h3 : compareHeaders a b f1 <;> cases h4 : compareHeaders a b f2 <;> simp_all

/-- The loop sees the options only through the tolerance and the verdict of
`compareHeaders` on the selected fields. -/
theorem scan_congr_opts (conv : Rat → Int) (o1 o2 : equalOpts)
    (ht : o1.timeTolerance = o2.timeTolerance)
    (hf : ∀ ha hb : Option Header,
      compareHeaders ha hb o1.headerFields = compareHeaders ha hb o2.headerFields)
    (a : List Line) :
    ∀ (b : List Line) (n : Nat) (x y : Int),
      Equal.scan conv o1 n x y a b = Equal.scan conv o2 n x y a b := by
  induction a with
  | nil => intro b n x y; cases b <;> simp [Equal.scan]
  | cons la a ih =>
    intro b n x y
    cases b with
    | nil => simp [Equal.scan]
    | cons lb b =>
      cases n with
      | zero =>
        cases hA : unmarshalHeader la with
        | error e => rw [scan_header_errA hA, scan_header_errA hA]
        | ok ha =>
          cases hB : unmarshalHeader lb with
          | error e => rw [scan_header_errB hA hB, scan_header_errB hA hB]
          | ok hb => rw [scan_header_ok hA hB, scan_header_ok hA hB, hf, ih]
      | succ n =>
        cases hA : event.UnmarshalJSON conv la with
        | error e => rw [scan_event_errA hA, scan_event_errA hA]
        | ok ea =>
          cases hB : event.UnmarshalJSON conv lb with
          | error e => rw [scan_event_errB hA hB, scan_event_errB hA hB]
          | ok eb => rw [scan_event_ok hA hB, scan_event_ok hA hB, ht, ih]

theorem foldl_CompareHeaderFields (fss : List (List String)) :
    ∀ o : equalOpts,
      (∀ x, x ∈ (List.foldl (fun opts (f : EqualOption) => f opts) o
          (fss.map CompareHeaderFields)).headerFields ↔
        x ∈ o.headerFields ∨ ∃ fs ∈ fss, x ∈ fs) := by
  induction fss with
  | nil => intro o x; simp
  | cons fs fss ih =>
    intro o x
    simp only [List.map_cons, List.foldl_cons]
    rw [ih]
    simp only [CompareHeaderFields, List.mem_append, List.mem_cons, exists_eq_or_imp]
    tauto

/-- C13: the header-field list acts as a set.  Two field lists with the same
names, in any order and with any repetition, give the same result of
`compareHeaders`; passing several `CompareHeaderFields` options to `Equal`
(after a `TimeTolerance` option) is the same as passing one
`CompareHeaderFields` option that holds all of their names, in any order; and
among any other options, two consecutive `CompareHeaderFields` options build
the same options as one option holding the names of both. -/
theorem headerFields_act_as_set :
    (∀ (a b : Option Header) (f1 f2 : List String), (∀ x, x ∈ f1 ↔ x ∈ f2) →
      compareHeaders a b f1 = compareHeaders a b f2) ∧
    (∀ (conv : Rat → Int) (a b : List Line) (t : Int) (fss : List (List String))
        (all : List String), (∀ x, x ∈ all ↔ ∃ fs ∈ fss, x ∈ fs) →
      Equal conv a b (TimeTolerance t :: fss.map CompareHeaderFields) =
        Equal conv a b [TimeTolerance t, CompareHeaderFields all]) ∧
    (∀ (o1 o2 : List EqualOption) (fs1 fs2 : List String),
      applyOptions (o1 ++ CompareHeaderFields fs1 :: CompareHeaderFields fs2 :: o2) =
        applyOptions (o1 ++ CompareHeaderFields (fs1 ++ fs2) :: o2)) := by
  refine ⟨compareHeaders_congr_fields, ?_, ?_⟩
  swap
  · intro o1 o2 fs1 fs2
    simp only [applyOptions, List.foldl_append, List.foldl_cons, CompareHeaderFields,
      List.append_assoc]
  intro conv a b t fss all hall
  unfold Equal
  apply scan_congr_opts
  · simp only [applyOptions, List.foldl_cons, List.foldl_nil]
    rw [applyOptions_headerFields_timeTolerance]
    rfl
  · intro ha hb
    apply compareHeaders_congr_fields
    intro x
    simp only [applyOptions, List.foldl_cons, List.foldl_nil]
    rw [foldl_CompareHeaderFields]
    simp only [TimeTolerance, CompareHeaderFields, List.nil_append, List.not_mem_nil, false_or]
    exact (hall x).symm

/-- Instance of C13: two options naming "a" and "b", "a" against one option
naming "b", "a". -/
theorem headerFields_act_as_set_witness :
    Equal secondsToDuration [some (.obj [("a", .num 1)])] [some (.obj [("a", .num 2)])]
        (TimeTolerance 5 :: [["a"], ["b", "a"]].map CompareHeaderFields) =
      Equal secondsToDuration [some (.obj [("a", .num 1)])] [some (.obj [("a", .num 2)])]
        [TimeTolerance 5, CompareHeaderFields ["b", "a"]] :=
  headerFields_act_as_set.2.1 secondsToDuration [some (.obj [("a", .num 1)])]
    [some (.obj [("a", .num 2)])] 5 [["a"], ["b", "a"]] ["b", "a"]
    (by intro x; simp; tauto)

/-! ## Read failures, first decode error, reflexivity -/

/-- C14 (the code at a failing input): both scanners deliver the header line and
then stop on a line that is too long; `Equal` never asks `Err`, treats both
stops as the end of the input and returns `(true, nil)` instead of the error. -/
theorem EqualReaders_drops_scan_error :
    EqualReaders secondsToDuration
      { lines := [some (.obj [("version", .num 2)])], err := some ScanError.tooLong }
      { lines := [some (.obj [("version", .num 2)])], err := some ScanError.tooLong }
      [] = (true, none) := by
  decide

/-- The first line pair that fails to decode, once reached, decides the result:
the error of A's line if that line fails, else the error of B's line. -/
theorem scan_decode_failure (conv : Rat → Int) (opts : equalOpts) (n : Nat) (x y : Int)
    (la lb : Line) (ra rb : List Line)
    (hbad : lineError conv n la ≠ none ∨ lineError conv n lb ≠ none) :
    Equal.scan conv opts n x y (la :: ra) (lb :: rb) =
      (false, (lineError conv n la).orElse (fun _ => lineError conv n lb)) := by
  cases n with
  | zero =>
    simp only [lineError] at hbad ⊢
    cases hA : unmarshalHeader la with
    | error e => rw [scan_header_errA hA]; simp
    | ok ha =>
      cases hB : unmarshalHeader lb with
      | error e => rw [scan_header_errB hA hB]; simp
      | ok hb => simp [hA, hB] at hbad
  | succ n =>
    simp only [lineError] at hbad ⊢
    cases hA : event.UnmarshalJSON conv la with
    | error e => rw [scan_event_errA hA]; simp
    | ok ea =>
      cases hB : event.UnmarshalJSON conv lb with
      | error e => rw [scan_event_errB hA hB]; simp
      | ok eb => simp [hA, hB] at hbad

/-- C15: if both streams have a line at position `pa.length`, all earlier line
pairs decoded and compared equal, and the line of A or of B at that position
fails to decode (line 1 as a header mapping, later lines as an event), then
`Equal` returns `false` with a non-nil error (the error of A's line if it
fails, else that of B's line), whatever the options and the remaining lines;
and `Equal` never returns true together with an error. -/
theorem Equal_first_decode_error (conv : Rat → Int) (opt : List EqualOption)
    (pa pb : List Line) (la lb : Line) (ra rb : List Line)
    (hlen : pa.length = pb.length)
    (hcommon : Equal conv pa pb opt = (true, none))
    (hbad : lineError conv pa.length la ≠ none ∨ lineError conv pa.length lb ≠ none) :
    (Equal conv (pa ++ la :: ra) (pb ++ lb :: rb) opt =
        (false, (lineError conv pa.length la).orElse (fun _ => lineError conv pa.length lb)) ∧
      (lineError conv pa.length la).orElse (fun _ => lineError conv pa.length lb) ≠ none) ∧
    (∀ (a b : List Line) (opt2 : List EqualOption),
      (Equal conv a b opt2).1 = true → (Equal conv a b opt2).2 = none) := by
  refine ⟨⟨?_, ?_⟩, ?_⟩
  · unfold Equal at hcommon ⊢
    obtain ⟨x2, y2, hrest⟩ :=
      scan_append_of_true conv (applyOptions opt) pa pb 0 0 0 hlen hcommon
    rw [hrest, Nat.zero_add]
    exact scan_decode_failure conv _ _ _ _ la lb ra rb hbad
  · cases h1 : lineError conv pa.length la with
    | some e => simp
    | none =>
      rw [h1] at hbad
      cases h2 : lineError conv pa.length lb with
      | some e => simp
      | none => rw [h2] at hbad; simp at hbad
  · intro a b opt2 h
    unfold Equal at h ⊢
    rw [scan_of_fst_true conv _ a b 0 0 0 h]

/-- Instance of C15: after equal headers and one equal event, the third line of
A is not an array. -/
theorem Equal_first_decode_error_witness :
    Equal secondsToDuration
      ([some (.obj []), some (.arr [.num 1, .str "o", .str "x"])] ++
        some (.str "oops") :: [some (.arr [.num 2, .str "o", .str "y"])])
      ([some (.obj []), some (.arr [.num 1, .str "o", .str "x"])] ++
        some (.arr [.num 2, .str "o", .str "y"]) :: [])
      [TimeTolerance 5] = (false, some Err.json) :=
  ((Equal_first_decode_error secondsToDuration [TimeTolerance 5]
    [some (.obj []), some (.arr [.num 1, .str "o", .str "x"])]
    [some (.obj []), some (.arr [.num 1, .str "o", .str "x"])]
    (some (.str "oops")) (some (.arr [.num 2, .str "o", .str "y"]))
    [some (.arr [.num 2, .str "o", .str "y"])] []
    rfl (by decide) (Or.inl (by decide))).1).1

/-- C19, as stated, fails: a well-formed stream compared with itself under the
largest tolerance is rejected, because `wantB.Time + timeTolerance` wraps
around. -/
theorem Equal_refl_counterexample :
    unmarshalHeader (some (.obj [("version", .num 2)])) = .ok (some [("version", .num 2)]) ∧
    event.UnmarshalJSON secondsToDuration (some (.arr [.num 3, .str "o", .str "foo"]))
      = .ok ⟨3000000000, "o", "foo"⟩ ∧
    (0 : Int) ≤ 2 ^ 63 - 1 ∧
    Equal secondsToDuration
      [some (.obj [("version", .num 2)]), some (.arr [.num 3, .str "o", .str "foo"])]
      [some (.obj [("version", .num 2)]), some (.arr [.num 3, .str "o", .str "foo"])]
      [TimeTolerance (2 ^ 63 - 1), CompareHeaderFields ["version"]] = (false, none) :=
  ⟨rfl, rfl, by decide, by rfl⟩

/-- C19 (amended): for every stream whose first line decodes as a header and
whose later lines all decode as events, every header-field list and every
tolerance `t ≥ 0` such that no event time minus or plus `t` overflows `int64`,
`Equal(s, s)` returns `(true, nil)`; so does `Equal` on two streams without
lines. -/
theorem Equal_refl_of_fits (conv : Rat → Int) (opt : List EqualOption)
    (lh : Line) (r : List Line) (h : Option Header) (es : List event)
    (ht : 0 ≤ (applyOptions opt).timeTolerance)
    (hH : unmarshalHeader lh = .ok h)
    (hr : r.map (event.UnmarshalJSON conv) = es.map Except.ok)
    (hfit : ∀ e ∈ es, fitsInt64 (e.Time - (applyOptions opt).timeTolerance) ∧
      fitsInt64 (e.Time + (applyOptions opt).timeTolerance)) :
    Equal conv (lh :: r) (lh :: r) opt = (true, none) ∧
    Equal conv [] [] opt = (true, none) := by
  refine ⟨?_, by simp [Equal, Equal.scan]⟩
  unfold Equal
  have hC : compareHeaders h h (applyOptions opt).headerFields = true :=
    (compareHeaders_iff_ref h h _).2 (fun _ _ => rfl)
  rw [scan_header_ok hH hH, if_pos hC]
  have key := scan_shifted conv (applyOptions opt) 0 ht es es r r 0 0 hr hr rfl
    (by
      intro i ea eb h1 h2
      rw [h1] at h2
      simp only [Option.some.injEq] at h2
      subst h2
      simp)
    hfit
  simpa using key

/-- Instance of C19: a header and two events, tolerance 50 ms. -/
theorem Equal_refl_of_fits_witness :
    Equal secondsToDuration
      (some (.obj [("version", .num 2)]) ::
        [some (.arr [.num 1, .str "o", .str "x"]), some (.arr [.num 2, .str "i", .str "y"])])
      (some (.obj [("version", .num 2)]) ::
        [some (.arr [.num 1, .str "o", .str "x"]), some (.arr [.num 2, .str "i", .str "y"])])
      [TimeTolerance 50000000, CompareHeaderFields ["version"]] = (true, none) :=
  (Equal_refl_of_fits secondsToDuration [TimeTolerance 50000000, CompareHeaderFields ["version"]]
    (some (.obj [("version", .num 2)]))
    [some (.arr [.num 1, .str "o", .str "x"]), some (.arr [.num 2, .str "i", .str "y"])]
    (some [("version", .num 2)])
    [⟨1000000000, "o", "x"⟩, ⟨2000000000, "i", "y"⟩]
    (by decide) rfl rfl
    (by
      intro e he
      simp at he
      rcases he with rfl | rfl <;> decide)).1

/-! ## Symmetry -/

theorem durationsFit_cons {conv : Rat → Int} {t x y : Int} {la lb : Line} {a b : List Line}
    {ea eb : event} (hA : event.UnmarshalJSON conv la = .ok ea)
    (hB : event.UnmarshalJSON conv lb = .ok eb) :
    durationsFit conv t x y (la :: a) (lb :: b) = true ↔
      (fitsInt64 (ea.Time - x) ∧ fitsInt64 (y + (ea.Time - x)) ∧
        fitsInt64 (y + (ea.Time - x) - t) ∧ fitsInt64 (y + (ea.Time - x) + t)) ∧
      durationsFit conv t ea.Time eb.Time a b = true := by
  rw [durationsFit]
  simp [hA, hB, and_assoc]

theorem compareHeaders_comm (a b : Option Header) (fields : List String) :
    compareHeaders a b fields = compareHeaders b a fields := by
  have h1 := compareHeaders_iff_ref a b fields
  have h2 := compareHeaders_iff_ref b a fields
  have key : compareHeadersRef a b fields ↔ compareHeadersRef b a fields := by
    unfold compareHeadersRef
    constructor
    · intro h f hf; exact (h f hf).symm
    · intro h f hf; exact (h f hf).symm
  cases h3 : compareHeaders a b fields <;> cases h4 : compareHeaders b a fields <;> simp_all

/-- The event loop gives the same verdict, and an error in the same cases, when
the two streams and the two baselines are exchanged, as long as nothing
overflows in either direction. -/
theorem scan_symm (conv : Rat → Int) (opts : equalOpts) (a : List Line) :
    ∀ (b : List Line) (n : Nat) (x y : Int),
      durationsFit conv opts.timeTolerance x y a b = true →
      durationsFit conv opts.timeTolerance y x b a = true →
      (Equal.scan conv opts (n + 1) x y a b).1 = (Equal.scan conv opts (n + 1) y x b a).1 ∧
      (Equal.scan conv opts (n + 1) x y a b).2.isSome =
        (Equal.scan conv opts (n + 1) y x b a).2.isSome := by
  induction a with
  | nil => intro b n x y _ _; cases b <;> simp [Equal.scan]
  | cons la a ih =>
    intro b n x y hab hba
    cases b with
    | nil => simp [Equal.scan]
    | cons lb b =>
      cases hA : event.UnmarshalJSON conv la with
      | error e =>
        rw [scan_event_errA hA]
        cases hB : event.UnmarshalJSON conv lb with
        | error e2 => rw [scan_event_errA hB]; simp
        | ok eb => rw [scan_event_errB hB hA]; simp
      | ok ea =>
        cases hB : event.UnmarshalJSON conv lb with
        | error e => rw [scan_event_errB hA hB, scan_event_errA hB]; simp
        | ok eb =>
          rw [durationsFit_cons hA hB] at hab
          rw [durationsFit_cons hB hA] at hba
          obtain ⟨⟨f1, f2, f3, f4⟩, hab2⟩ := hab
          obtain ⟨⟨g1, g2, g3, g4⟩, hba2⟩ := hba
          have hE1 := event_equal_iff_of_fits
            { Time := y + (ea.Time - x), Type_ := ea.Type_, Data := ea.Data } eb
            opts.timeTolerance f3 f4
          have hE2 := event_equal_iff_of_fits
            { Time := x + (eb.Time - y), Type_ := eb.Type_, Data := eb.Data } ea
            opts.timeTolerance g3 g4
          simp only at hE1 hE2
          rw [scan_event_ok hA hB, scan_event_ok hB hA, wrap64_of_fits f1, wrap64_of_fits f2,
            wrap64_of_fits g1, wrap64_of_fits g2]
          by_cases h1 : event.equal
              (some { Time := y + (ea.Time - x), Type_ := ea.Type_, Data := ea.Data })
              (some eb) opts.timeTolerance = true
          · have h2 : event.equal
                (some { Time := x + (eb.Time - y), Type_ := eb.Type_, Data := eb.Data })
                (some ea) opts.timeTolerance = true := by
              obtain ⟨hT, hD, h3, h4⟩ := hE1.1 h1
              exact hE2.2 ⟨hT.symm, hD.symm, by omega, by omega⟩
            rw [if_pos h1, if_pos h2]
            exact ih b (n + 1) ea.Time eb.Time hab2 hba2
          · have h2 : ¬ event.equal
                (some { Time := x + (eb.Time - y), Type_ := eb.Type_, Data := eb.Data })
                (some ea) opts.timeTolerance = true := by
              intro h2
              obtain ⟨hT, hD, h3, h4⟩ := hE2.1 h2
              exact h1 (hE1.2 ⟨hT.symm, hD.symm, by omega, by omega⟩)
            rw [if_neg h1, if_neg h2]
            simp

/-- C18: when none of the durations computed on the event lines overflows, in
either order of the two streams, `Equal(a, b)` returns true exactly when
`Equal(b, a)` returns true, and `Equal(a, b)` returns an error exactly when
`Equal(b, a)` returns an error. -/
theorem Equal_symm_of_fits (conv : Rat → Int) (opt : List EqualOption) (a b : List Line)
    (hab : durationsFit conv (applyOptions opt).timeTolerance 0 0 a.tail b.tail = true)
    (hba : durationsFit conv (applyOptions opt).timeTolerance 0 0 b.tail a.tail = true) :
    ((Equal conv a b opt).1 = true ↔ (Equal conv b a opt).1 = true) ∧
    ((Equal conv a b opt).2 ≠ none ↔ (Equal conv b a opt).2 ≠ none) := by
  have key : (Equal conv a b opt).1 = (Equal conv b a opt).1 ∧
      (Equal conv a b opt).2.isSome = (Equal conv b a opt).2.isSome := by
    unfold Equal
    cases a with
    | nil => cases b <;> simp [Equal.scan]
    | cons la a =>
      cases b with
      | nil => simp [Equal.scan]
      | cons lb b =>
        simp only [List.tail_cons] at hab hba
        cases hA : unmarshalHeader la with
        | error e =>
          rw [scan_header_errA hA]
          cases hB : unmarshalHeader lb with
          | error e2 => rw [scan_header_errA hB]; simp
          | ok hb => rw [scan_header_errB hB hA]; simp
        | ok ha =>
          cases hB : unmarshalHeader lb with
          | error e => rw [scan_header_errB hA hB, scan_header_errA hB]; simp
          | ok hb =>
            rw [scan_header_ok hA hB, scan_header_ok hB hA, compareHeaders_comm hb ha]
            by_cases hC : compareHeaders ha hb (applyOptions opt).headerFields = true
            · rw [if_pos hC, if_pos hC]
              exact scan_symm conv _ a b 0 0 0 hab hba
            · rw [if_neg hC, if_neg hC]
              simp
  obtain ⟨k1, k2⟩ := key
  refine ⟨by rw [k1], ?_⟩
  cases h1 : (Equal conv a b opt).2 <;> cases h2 : (Equal conv b a opt).2 <;>
    simp [h1, h2] at k2 ⊢

/-- Instance of C18: B drifts by 15.625 ms on the second event, tolerance 50 ms;
both orders are accepted. -/
theorem Equal_symm_of_fits_witness :
    (Equal secondsToDuration
      [some (.obj []), some (.arr [.num 1, .str "o", .str "x"]),
        some (.arr [.num 2, .str "o", .str "y"])]
      [some (.obj []), some (.arr [.num 1, .str "o", .str "x"]),
        some (.arr [.num (mkRat 129 64), .str "o", .str "y"])]
      [TimeTolerance 50000000]).1 = true ↔
    (Equal secondsToDuration
      [some (.obj []), some (.arr [.num 1, .str "o", .str "x"]),
        some (.arr [.num (mkRat 129 64), .str "o", .str "y"])]
      [some (.obj []), some (.arr [.num 1, .str "o", .str "x"]),
        some (.arr [.num 2, .str "o", .str "y"])]
      [TimeTolerance 50000000]).1 = true :=
  (Equal_symm_of_fits secondsToDuration [TimeTolerance 50000000]
    [some (.obj []), some (.arr [.num 1, .str "o", .str "x"]),
      some (.arr [.num 2, .str "o", .str "y"])]
    [some (.obj []), some (.arr [.num 1, .str "o", .str "x"]),
      some (.arr [.num (mkRat 129 64), .str "o", .str "y"])]
    (by decide) (by decide)).1

/-! ## Monotonicity in the tolerance -/

/-- The event loop accepts under a larger tolerance what it accepts under a
smaller one, as long as nothing overflows under either. -/
theorem scan_mono (conv : Rat → Int) (o1 o2 : equalOpts)
    (hle : o1.timeTolerance ≤ o2.timeTolerance) (a : List Line) :
    ∀ (b : List Line) (n : Nat) (x y : Int),
      durationsFit conv o1.timeTolerance x y a b = true →
      durationsFit conv o2.timeTolerance x y a b = true →
      Equal.scan conv o1 (n + 1) x y a b = (true, none) →
      Equal.scan conv o2 (n + 1) x y a b = (true, none) := by
  induction a with
  | nil => intro b n x y _ _ h; cases b <;> simp_all [Equal.scan]
  | cons la a ih =>
    intro b n x y h1 h2 h
    cases b with
    | nil => simp [Equal.scan] at h
    | cons lb b =>
      cases hA : event.UnmarshalJSON conv la with
      | error e => rw [scan_event_errA hA] at h; simp at h
      | ok ea =>
        cases hB : event.UnmarshalJSON conv lb with
        | error e => rw [scan_event_errB hA hB] at h; simp at h
        | ok eb =>
          rw [durationsFit_cons hA hB] at h1 h2
          obtain ⟨⟨f1, f2, f3, f4⟩, h1r⟩ := h1
          obtain ⟨⟨_, _, g3, g4⟩, h2r⟩ := h2
          have hE1 := event_equal_iff_of_fits
            { Time := y + (ea.Time - x), Type_ := ea.Type_, Data := ea.Data } eb
            o1.timeTolerance f3 f4
          have hE2 := event_equal_iff_of_fits
            { Time := y + (ea.Time - x), Type_ := ea.Type_, Data := ea.Data } eb
            o2.timeTolerance g3 g4
          simp only at hE1 hE2
          rw [scan_event_ok hA hB, wrap64_of_fits f1, wrap64_of_fits f2] at h ⊢
          split at h
          · rename_i hc
            obtain ⟨hT, hD, h3, h4⟩ := hE1.1 hc
            rw [if_pos (hE2.2 ⟨hT, hD, by omega, by omega⟩)]
            exact ih b (n + 1) ea.Time eb.Time h1r h2r h
          · simp at h

/-- Two runs of the loop that differ only in the tolerance return the same
error, or none, when they agree on the verdict of every proper prefix. -/
theorem scan_error_indep (conv : Rat → Int) (o1 o2 : equalOpts)
    (hf : o1.headerFields = o2.headerFields) (a : List Line) :
    ∀ (b : List Line) (n : Nat) (x y : Int),
      (∀ j, j < max a.length b.length →
        (Equal.scan conv o1 n x y (a.take j) (b.take j)).1 =
          (Equal.scan conv o2 n x y (a.take j) (b.take j)).1) →
      (Equal.scan conv o1 n x y a b).2 = (Equal.scan conv o2 n x y a b).2 := by
  induction a with
  | nil => intro b n x y _; cases b <;> simp [Equal.scan]
  | cons la a ih =>
    intro b n x y hyp
    cases b with
    | nil => simp [Equal.scan]
    | cons lb b =>
      have hstep : ∀ j, j < max a.length b.length →
          (Equal.scan conv o1 n x y (la :: a.take j) (lb :: b.take j)).1 =
            (Equal.scan conv o2 n x y (la :: a.take j) (lb :: b.take j)).1 := by
        intro j hj
        have := hyp (j + 1) (by simp only [List.length_cons]; omega)
        simpa only [List.take_succ_cons] using this
      cases n with
      | zero =>
        cases hA : unmarshalHeader la with
        | error e => rw [scan_header_errA hA, scan_header_errA hA]
        | ok ha =>
          cases hB : unmarshalHeader lb with
          | error e => rw [scan_header_errB hA hB, scan_header_errB hA hB]
          | ok hb =>
            rw [scan_header_ok hA hB, scan_header_ok hA hB, hf]
            by_cases hC : compareHeaders ha hb o2.headerFields = true
            · rw [if_pos hC, if_pos hC]
              apply ih b 1 x y
              intro j hj
              have := hstep j hj
              rw [scan_header_ok hA hB, scan_header_ok hA hB, hf, if_pos hC, if_pos hC] at this
              exact this
            · rw [if_neg hC, if_neg hC]
      | succ n =>
        cases hA : event.UnmarshalJSON conv la with
        | error e => rw [scan_event_errA hA, scan_event_errA hA]
        | ok ea =>
          cases hB : event.UnmarshalJSON conv lb with
          | error e => rw [scan_event_errB hA hB, scan_event_errB hA hB]
          | ok eb =>
            rw [scan_event_ok hA hB, scan_event_ok hA hB]
            by_cases hz : max a.length b.length = 0
            · have ha : a = [] := List.length_eq_zero.1 (by omega)
              have hb : b = [] := List.length_eq_zero.1 (by omega)
              subst ha hb
              split <;> split <;> simp [Equal.scan]
            · have h0 := hstep 0 (by omega)
              simp only [List.take_zero] at h0
              rw [scan_event_ok hA hB, scan_event_ok hA hB] at h0
              by_cases c1 : event.equal
                  (some { Time := wrap64 (y + wrap64 (ea.Time - x)), Type_ := ea.Type_,
                          Data := ea.Data })
                  (some eb) o1.timeTolerance = true <;>
                by_cases c2 : event.equal
                  (some { Time := wrap64 (y + wrap64 (ea.Time - x)), Type_ := ea.Type_,
                          Data := ea.Data })
                  (some eb) o2.timeTolerance = true
              · rw [if_pos c1, if_pos c2]
                apply ih b (n + 2) ea.Time eb.Time
                intro j hj
                have := hstep j hj
                rw [scan_event_ok hA hB, scan_event_ok hA hB, if_pos c1, if_pos c2] at this
                exact this
              · rw [if_pos c1, if_neg c2] at h0
                simp [Equal.scan] at h0
              · rw [if_neg c1, if_pos c2] at h0
                simp [Equal.scan] at h0
              · rw [if_neg c1, if_neg c2]

/-- C17: `Equal` is monotone in the tolerance.  For tolerances `t ≤ t2` under
which none of the durations computed on the event lines overflows, if `Equal`
returns `(true, nil)` under `t` it returns `(true, nil)` under `t2`.  And for
every `k`: when the change from `t` to `t2` keeps the verdict on the first `j`
lines for every `j < k`, `Equal` on the first `k` lines returns the same error,
or none, under both tolerances. -/
theorem Equal_mono_tolerance (conv : Rat → Int) (a b : List Line) (fields : List String)
    (t t2 : Int) :
    (t ≤ t2 → durationsFit conv t 0 0 a.tail b.tail = true →
      durationsFit conv t2 0 0 a.tail b.tail = true →
      Equal conv a b [TimeTolerance t, CompareHeaderFields fields] = (true, none) →
      Equal conv a b [TimeTolerance t2, CompareHeaderFields fields] = (true, none)) ∧
    (∀ k : Nat,
      (∀ j, j < k →
        (Equal conv (a.take j) (b.take j) [TimeTolerance t, CompareHeaderFields fields]).1 =
          (Equal conv (a.take j) (b.take j) [TimeTolerance t2, CompareHeaderFields fields]).1) →
      (Equal conv (a.take k) (b.take k) [TimeTolerance t, CompareHeaderFields fields]).2 =
        (Equal conv (a.take k) (b.take k) [TimeTolerance t2, CompareHeaderFields fields]).2) := by
  constructor
  · intro hle h1 h2 h
    unfold Equal at h ⊢
    cases a with
    | nil => cases b <;> simp_all [Equal.scan]
    | cons la a =>
      cases b with
      | nil => simp [Equal.scan] at h
      | cons lb b =>
        simp only [List.tail_cons] at h1 h2
        cases hA : unmarshalHeader la with
        | error e => rw [scan_header_errA hA] at h; simp at h
        | ok ha =>
          cases hB : unmarshalHeader lb with
          | error e => rw [scan_header_errB hA hB] at h; simp at h
          | ok hb =>
            rw [scan_header_ok hA hB] at h ⊢
            have hfields : (applyOptions [TimeTolerance t2, CompareHeaderFields fields]).headerFields
                = (applyOptions [TimeTolerance t, CompareHeaderFields fields]).headerFields := rfl
            rw [hfields]
            split at h
            · rename_i hC
              rw [if_pos hC]
              exact scan_mono conv _ _ hle a b 0 0 0 h1 h2 h
            · simp at h
  · intro k hyp
    unfold Equal
    apply scan_error_indep conv (applyOptions [TimeTolerance t, CompareHeaderFields fields])
      (applyOptions [TimeTolerance t2, CompareHeaderFields fields]) rfl
    intro j hj
    have hjk : j < k := by
      have h1 : (a.take k).length ≤ k := by simp
      have h2 : (b.take k).length ≤ k := by simp
      omega
    have := hyp j hjk
    unfold Equal at this
    rw [List.take_take, List.take_take, Nat.min_eq_left (Nat.le_of_lt hjk)]
    exact this

/-- Instance of C17: B drifts by 7.8125 ms; accepted under 20 ms, hence under
50 ms. -/
theorem Equal_mono_tolerance_witness :
    Equal secondsToDuration
      [some (.obj []), some (.arr [.num 1, .str "o", .str "x"])]
      [some (.obj []), some (.arr [.num (mkRat 129 128), .str "o", .str "x"])]
      [TimeTolerance 50000000, CompareHeaderFields ["version"]] = (true, none) :=
  (Equal_mono_tolerance secondsToDuration
    [some (.obj []), some (.arr [.num 1, .str "o", .str "x"])]
    [some (.obj []), some (.arr [.num (mkRat 129 128), .str "o", .str "x"])]
    ["version"] 20000000 50000000).1
    (by decide) (by decide) (by decide) (by decide)

/-! ## Accumulated drift -/

theorem driftSecondsA_time (t k : Nat) :
    secondsToDuration (driftSecondsA t k) = -(((k * t) % 2000000000 : Nat) : Int) := by
  unfold driftSecondsA
  generalize k * t = K
  by_cases h : K % 2000000000 = 0
  · rw [if_pos h, h]
    decide
  · rw [if_neg h]
    have hl : K % 2000000000 < 2000000000 := Nat.mod_lt _ (by decide)
    generalize K % 2000000000 = l at h hl
    exact secondsToDuration_neg_mid _ (2 ^ 31) l (by decide) (by omega) (by omega) (by omega)
      (by omega)

theorem driftSecondsB_time (t k : Nat) (h : 2000000000 * (k * t / 2000000000) < 2 ^ 63) :
    secondsToDuration (driftSecondsB t k)
      = ((2000000000 * (k * t / 2000000000) : Nat) : Int) := by
  unfold driftSecondsB
  generalize k * t / 2000000000 = s at h
  rw [secondsToDuration_natCast (2 * s) (by omega) ⟨1953125 * s, by ring⟩]
  push_cast
  ring

theorem driftSecondsA_isFloat64 (t k : Nat) : isFloat64 (driftSecondsA t k) := by
  unfold driftSecondsA
  generalize k * t = K
  by_cases h : K % 2000000000 = 0
  · rw [if_pos h]
    exact ⟨0, 0, by decide, by decide, by decide, by simp⟩
  · rw [if_neg h]
    have hl : K % 2000000000 < 2000000000 := Nat.mod_lt _ (by decide)
    generalize K % 2000000000 = l at h hl
    refine ⟨-((((4 * l + 1) * 2 ^ 29 + 999999999) / 1000000000 : Nat) : Int), -31,
      by omega, by decide, by decide, ?_⟩
    rw [Rat.mkRat_eq_div, zpow_neg, div_eq_mul_inv]
    norm_num

theorem driftSecondsB_isFloat64 (t k : Nat) (h : 2000000000 * (k * t / 2000000000) < 2 ^ 63) :
    isFloat64 (driftSecondsB t k) := by
  unfold driftSecondsB
  generalize k * t / 2000000000 = s at h
  exact ⟨((2 * s : Nat) : Int), 0, by omega, by decide, by decide, by simp⟩

/-- One step of the drift construction, in numbers: from the times of event
`k` (`K = k * t`) to those of event `k + 1`, nothing overflows and B's time is
the expected time plus the tolerance. -/
theorem drift_step (K t : Nat) (hK : K = 0 ∨ t ≤ K)
    (hfirst : t + t % 2000000000 ≤ 2 ^ 63)
    (hB1 : 2000000000 * ((K + t) / 2000000000) < 2 ^ 63) :
    fitsInt64 (-(((K + t) % 2000000000 : Nat) : Int) - -((K % 2000000000 : Nat) : Int)) ∧
    fitsInt64 (((2000000000 * (K / 2000000000) : Nat) : Int)
      + (-(((K + t) % 2000000000 : Nat) : Int) - -((K % 2000000000 : Nat) : Int))) ∧
    fitsInt64 (((2000000000 * (K / 2000000000) : Nat) : Int)
      + (-(((K + t) % 2000000000 : Nat) : Int) - -((K % 2000000000 : Nat) : Int))
      - (t : Int)) ∧
    fitsInt64 (((2000000000 * (K / 2000000000) : Nat) : Int)
      + (-(((K + t) % 2000000000 : Nat) : Int) - -((K % 2000000000 : Nat) : Int))
      + (t : Int)) ∧
    ((2000000000 * (K / 2000000000) : Nat) : Int)
      + (-(((K + t) % 2000000000 : Nat) : Int) - -((K % 2000000000 : Nat) : Int))
      + (t : Int) = ((2000000000 * ((K + t) / 2000000000) : Nat) : Int) := by
  unfold fitsInt64
  rcases hK with h0 | h1
  · subst h0
    refine ⟨?_, ?_, ?_, ?_, ?_⟩ <;> omega
  · refine ⟨?_, ?_, ?_, ?_, ?_⟩ <;> omega

/-- The event loop on the drift construction, from event `k + 1` on, started
from the times of event `k`. -/
theorem scan_driftStreams (opts : equalOpts) (t : Nat)
    (ht : opts.timeTolerance = (t : Int)) (hfirst : t + t % 2000000000 ≤ 2 ^ 63) :
    ∀ (len k n0 : Nat), 2000000000 * ((k + len) * t / 2000000000) < 2 ^ 63 →
      Equal.scan secondsToDuration opts (n0 + 1)
        (-(((k * t) % 2000000000 : Nat) : Int))
        ((2000000000 * (k * t / 2000000000) : Nat) : Int)
        ((List.range' (k + 1) len).map (driftLineA t))
        ((List.range' (k + 1) len).map (driftLineB t)) = (true, none) := by
  intro len
  induction len with
  | zero => intro k n0 _; simp [Equal.scan]
  | succ len ih =>
    intro k n0 hbound
    have hmono : (k + 1) * t ≤ (k + (len + 1)) * t :=
      Nat.mul_le_mul_right _ (by omega)
    have hsucc : (k + 1) * t = k * t + t := by ring
    have hB1 : 2000000000 * ((k + 1) * t / 2000000000) < 2 ^ 63 := by
      have := Nat.mul_le_mul_left 2000000000 (Nat.div_le_div_right (c := 2000000000) hmono)
      omega
    have hK : k * t = 0 ∨ t ≤ k * t := by
      cases k with
      | zero => exact Or.inl (Nat.zero_mul t)
      | succ j => exact Or.inr (Nat.le_mul_of_pos_left t (by omega))
    have hA : event.UnmarshalJSON secondsToDuration (driftLineA t (k + 1))
        = .ok ⟨-((((k + 1) * t) % 2000000000 : Nat) : Int), "o", ""⟩ := by
      rw [← driftSecondsA_time]; rfl
    have hB : event.UnmarshalJSON secondsToDuration (driftLineB t (k + 1))
        = .ok ⟨((2000000000 * ((k + 1) * t / 2000000000) : Nat) : Int), "o", ""⟩ := by
      rw [← driftSecondsB_time t (k + 1) hB1]; rfl
    have hrest := ih (k + 1) (n0 + 1) (by
      have e : k + 1 + len = k + (len + 1) := by omega
      rw [e]; exact hbound)
    rw [hsucc] at hB1 hA hB hrest
    obtain ⟨f1, f2, f3, f4, heq⟩ := drift_step (k * t) t hK hfirst hB1
    rw [List.range'_succ, List.map_cons, List.map_cons, scan_event_ok hA hB]
    simp only
    rw [wrap64_of_fits f1, wrap64_of_fits f2]
    have hE : event.equal
        (some { Time := ((2000000000 * (k * t / 2000000000) : Nat) : Int)
                  + (-(((k * t + t) % 2000000000 : Nat) : Int)
                      - -(((k * t) % 2000000000 : Nat) : Int)),
                Type_ := "o", Data := "" })
        (some { Time := ((2000000000 * ((k * t + t) / 2000000000) : Nat) : Int),
                Type_ := "o", Data := "" })
        opts.timeTolerance = true := by
      rw [ht]
      refine (event_equal_iff_of_fits
        { Time := ((2000000000 * (k * t / 2000000000) : Nat) : Int)
                  + (-(((k * t + t) % 2000000000 : Nat) : Int)
                      - -(((k * t) % 2000000000 : Nat) : Int)),
          Type_ := "o", Data := "" }
        { Time := ((2000000000 * ((k * t + t) / 2000000000) : Nat) : Int),
          Type_ := "o", Data := "" } (t : Int) f3 f4).2 ⟨rfl, rfl, ?_, ?_⟩
      · show ((2000000000 * (k * t / 2000000000) : Nat) : Int)
          + (-(((k * t + t) % 2000000000 : Nat) : Int) - -(((k * t) % 2000000000 : Nat) : Int))
          - (t : Int) ≤ ((2000000000 * ((k * t + t) / 2000000000) : Nat) : Int)
        rw [← heq]
        omega
      · show ((2000000000 * ((k * t + t) / 2000000000) : Nat) : Int)
          ≤ ((2000000000 * (k * t / 2000000000) : Nat) : Int)
          + (-(((k * t + t) % 2000000000 : Nat) : Int) - -(((k * t) % 2000000000 : Nat) : Int))
          + (t : Int)
        rw [heq]
    rw [if_pos hE]
    exact hrest

/-- The event loop, when nothing overflows: after acceptance the times of the
events at position `i` differ by at most the initial offset plus
`(i + 1) * t`. -/
theorem scan_drift_bound (conv : Rat → Int) (opts : equalOpts) (a : List Line) :
    ∀ (b : List Line) (n : Nat) (x y D : Int),
      durationsFit conv opts.timeTolerance x y a b = true →
      Equal.scan conv opts (n + 1) x y a b = (true, none) →
      -D ≤ y - x → y - x ≤ D →
      ∀ (i : Nat) (la lb : Line) (ea eb : event),
        a[i]? = some la → b[i]? = some lb →
        event.UnmarshalJSON conv la = .ok ea → event.UnmarshalJSON conv lb = .ok eb →
        -(D + ((i : Int) + 1) * opts.timeTolerance) ≤ eb.Time - ea.Time ∧
          eb.Time - ea.Time ≤ D + ((i : Int) + 1) * opts.timeTolerance := by
  induction a with
  | nil => intro b n x y D _ _ _ _ i la lb ea eb h1; simp at h1
  | cons la0 a ih =>
    intro b n x y D hfit h hD1 hD2 i la lb ea eb h1 h2 hA hB
    cases b with
    | nil => simp at h2
    | cons lb0 b =>
      cases hA0 : event.UnmarshalJSON conv la0 with
      | error e => rw [scan_event_errA hA0] at h; simp at h
      | ok ea0 =>
        cases hB0 : event.UnmarshalJSON conv lb0 with
        | error e => rw [scan_event_errB hA0 hB0] at h; simp at h
        | ok eb0 =>
          rw [durationsFit_cons hA0 hB0] at hfit
          obtain ⟨⟨f1, f2, f3, f4⟩, hfit2⟩ := hfit
          have hE := event_equal_iff_of_fits
            { Time := y + (ea0.Time - x), Type_ := ea0.Type_, Data := ea0.Data } eb0
            opts.timeTolerance f3 f4
          simp only at hE
          rw [scan_event_ok hA0 hB0, wrap64_of_fits f1, wrap64_of_fits f2] at h
          split at h
          · rename_i hc
            obtain ⟨_, _, h3, h4⟩ := hE.1 hc
            cases i with
            | zero =>
              simp only [List.getElem?_cons_zero, Option.some.injEq] at h1 h2
              subst h1 h2
              rw [hA0] at hA
              rw [hB0] at hB
              simp only [Except.ok.injEq] at hA hB
              subst hA hB
              simp only [Nat.cast_zero, Int.zero_add, Int.one_mul]
              constructor <;> omega
            | succ j =>
              simp only [List.getElem?_cons_succ] at h1 h2
              have := ih b (n + 1) ea0.Time eb0.Time (D + opts.timeTolerance) hfit2 h
                (by omega) (by omega) j la lb ea eb h1 h2 hA hB
              have hj : ((j + 1 : Nat) : Int) + 1
                  = ((j : Int) + 1) + 1 := by push_cast; ring
              have hmul : (((j : Int) + 1) + 1) * opts.timeTolerance
                  = ((j : Int) + 1) * opts.timeTolerance + opts.timeTolerance := by ring
              rw [hj, hmul]
              constructor <;> omega
          · simp at h

/-- C16, as stated, fails.  Under a tolerance of 7 * 10^17 ns, `Equal` accepts
two streams of three events whose third events (at 8589934592 s and
-8589934592 s) differ by far more than three tolerances: the expected time of
B wraps around.  And for the tolerance 2^63 - 1 and `n = 3` no two `int64`
times differ by `n` tolerances. -/
theorem Equal_drift_counterexample :
    (Equal secondsToDuration
      [some (.obj []), some (.arr [.num 0, .str "o", .str "x"]),
        some (.arr [.num 0, .str "o", .str "y"]),
        some (.arr [.num 8589934592, .str "o", .str "z"])]
      [some (.obj []), some (.arr [.num 700000000, .str "o", .str "x"]),
        some (.arr [.num 1400000000, .str "o", .str "y"]),
        some (.arr [.num (-8589934592), .str "o", .str "z"])]
      [TimeTolerance 700000000000000000] = (true, none) ∧
    event.UnmarshalJSON secondsToDuration (some (.arr [.num 8589934592, .str "o", .str "z"]))
      = .ok ⟨8589934592000000000, "o", "z"⟩ ∧
    event.UnmarshalJSON secondsToDuration (some (.arr [.num (-8589934592), .str "o", .str "z"]))
      = .ok ⟨-8589934592000000000, "o", "z"⟩ ∧
    (3 : Int) * 700000000000000000 < 8589934592000000000 - (-8589934592000000000)) ∧
    ¬ ∃ x y : Int, fitsInt64 x ∧ fitsInt64 y ∧ y - x = 3 * (2 ^ 63 - 1) := by
  refine ⟨⟨by decide, by rfl, by rfl, by decide⟩, ?_⟩
  rintro ⟨x, y, hx, hy, h⟩
  unfold fitsInt64 at hx hy
  omega

/-- C16 (amended): the tolerance bounds the drift between consecutive events,
not the accumulated drift.  For every tolerance `t > 0` (in ns) and every
`n ≥ 1` such that `n * t`, rounded down to a multiple of `2 * 10 ^ 9`, is below
`2 ^ 63` — in particular whenever `n * t ≤ 2 ^ 63` — and such that
`t + t mod 2 * 10 ^ 9 ≤ 2 ^ 63`, there are two streams of `n` events each, all
of whose numbers are `float64` values, that `Equal` with the conversion of the
code accepts under tolerance `t`, although their last events are decoded to
times that differ by `n * t`.  And for every conversion: whenever `Equal`
returns true under a tolerance `t ≥ 0` and none of the durations computed on
the event lines overflows, the events at position `i` (counted from 0) differ
in time by at most `(i + 1) * t`. -/
theorem Equal_drift_accumulates :
    (∀ t n : Nat, 0 < t → 1 ≤ n →
      2000000000 * (n * t / 2000000000) < 2 ^ 63 → t + t % 2000000000 ≤ 2 ^ 63 →
      ∃ a b : List Line,
        a.length = n + 1 ∧ b.length = n + 1 ∧
        (∀ k, 1 ≤ k → k ≤ n → ∃ qa qb : Rat, isFloat64 qa ∧ isFloat64 qb ∧
          a[k]? = some (some (.arr [.num qa, .str "o", .str ""])) ∧
          b[k]? = some (some (.arr [.num qb, .str "o", .str ""]))) ∧
        Equal secondsToDuration a b [TimeTolerance (t : Int)] = (true, none) ∧
        ∃ (la lb : Line) (ea eb : event), a[n]? = some la ∧ b[n]? = some lb ∧
          event.UnmarshalJSON secondsToDuration la = .ok ea ∧
          event.UnmarshalJSON secondsToDuration lb = .ok eb ∧
          eb.Time - ea.Time = (n : Int) * (t : Int)) ∧
    (∀ (conv : Rat → Int) (opt : List EqualOption) (a b : List Line),
      0 ≤ (applyOptions opt).timeTolerance →
      durationsFit conv (applyOptions opt).timeTolerance 0 0 a.tail b.tail = true →
      (Equal conv a b opt).1 = true →
      ∀ (i : Nat) (la lb : Line) (ea eb : event),
        a.tail[i]? = some la → b.tail[i]? = some lb →
        event.UnmarshalJSON conv la = .ok ea → event.UnmarshalJSON conv lb = .ok eb →
        |eb.Time - ea.Time| ≤ ((i : Int) + 1) * (applyOptions opt).timeTolerance) := by
  constructor
  · intro t n ht hn hbound hfirst
    have hk : ∀ k, 1 ≤ k → k ≤ n →
        (driftStreamA t n)[k]? = some (driftLineA t k) ∧
        (driftStreamB t n)[k]? = some (driftLineB t k) := by
      intro k h1 h2
      obtain ⟨j, rfl⟩ : ∃ j, k = j + 1 := ⟨k - 1, by omega⟩
      have hj : j < n := by omega
      simp only [driftStreamA, driftStreamB, List.getElem?_cons_succ, List.getElem?_map,
        List.getElem?_range' _ _ hj]
      simp [Nat.add_comm]
    have hBk : ∀ k, k ≤ n → 2000000000 * (k * t / 2000000000) < 2 ^ 63 := by
      intro k hkn
      have hmono : k * t ≤ n * t := Nat.mul_le_mul_right _ hkn
      have := Nat.mul_le_mul_left 2000000000 (Nat.div_le_div_right (c := 2000000000) hmono)
      omega
    refine ⟨driftStreamA t n, driftStreamB t n, by simp [driftStreamA],
      by simp [driftStreamB], ?_, ?_, ?_⟩
    · intro k h1 h2
      exact ⟨driftSecondsA t k, driftSecondsB t k, driftSecondsA_isFloat64 t k,
        driftSecondsB_isFloat64 t k (hBk k h2), (hk k h1 h2).1, (hk k h1 h2).2⟩
    · unfold Equal driftStreamA driftStreamB
      have hH : unmarshalHeader (some (.obj [])) = .ok (some []) := rfl
      have hC : compareHeaders (some []) (some [])
          (applyOptions [TimeTolerance (t : Int)]).headerFields = true :=
        (compareHeaders_iff_ref _ _ _).2 (fun _ _ => rfl)
      rw [scan_header_ok hH hH, if_pos hC]
      have := scan_driftStreams (applyOptions [TimeTolerance (t : Int)]) t rfl hfirst n 0 0
        (by simpa using hbound)
      simpa using this
    · refine ⟨driftLineA t n, driftLineB t n,
        ⟨-(((n * t) % 2000000000 : Nat) : Int), "o", ""⟩,
        ⟨((2000000000 * (n * t / 2000000000) : Nat) : Int), "o", ""⟩,
        (hk n hn (Nat.le_refl n)).1, (hk n hn (Nat.le_refl n)).2, ?_, ?_, ?_⟩
      · rw [← driftSecondsA_time]; rfl
      · rw [← driftSecondsB_time t n hbound]; rfl
      · show ((2000000000 * (n * t / 2000000000) : Nat) : Int)
          - -(((n * t) % 2000000000 : Nat) : Int) = (n : Int) * (t : Int)
        have e : ((n : Int) * (t : Int)) = ((n * t : Nat) : Int) := by push_cast; rfl
        rw [e]
        generalize n * t = K
        omega
  · intro conv opt a b ht hfit htrue i la lb ea eb h1 h2 hA hB
    unfold Equal at htrue
    have h := scan_of_fst_true conv _ a b 0 0 0 htrue
    cases a with
    | nil => simp at h1
    | cons la0 a =>
      cases b with
      | nil => simp at h2
      | cons lb0 b =>
        simp only [List.tail_cons] at hfit h1 h2
        cases hA0 : unmarshalHeader la0 with
        | error e => rw [scan_header_errA hA0] at h; simp at h
        | ok ha =>
          cases hB0 : unmarshalHeader lb0 with
          | error e => rw [scan_header_errB hA0 hB0] at h; simp at h
          | ok hb =>
            rw [scan_header_ok hA0 hB0] at h
            split at h
            · have := scan_drift_bound conv _ a b 0 0 0 0 hfit h (by simp) (by simp)
                i la lb ea eb h1 h2 hA hB
              rw [abs_le]
              constructor <;> omega
            · simp at h

/-- Instance of C16: tolerance 50 ms and three events; the streams built are
accepted and their last events are 150 ms apart. -/
theorem Equal_drift_accumulates_witness :
    ∃ a b : List Line,
      a.length = 3 + 1 ∧ b.length = 3 + 1 ∧
      (∀ k, 1 ≤ k → k ≤ 3 → ∃ qa qb : Rat, isFloat64 qa ∧ isFloat64 qb ∧
        a[k]? = some (some (.arr [.num qa, .str "o", .str ""])) ∧
        b[k]? = some (some (.arr [.num qb, .str "o", .str ""]))) ∧
      Equal secondsToDuration a b [TimeTolerance ((50000000 : Nat) : Int)] = (true, none) ∧
      ∃ (la lb : Line) (ea eb : event), a[3]? = some la ∧ b[3]? = some lb ∧
        event.UnmarshalJSON secondsToDuration la = .ok ea ∧
        event.UnmarshalJSON secondsToDuration lb = .ok eb ∧
        eb.Time - ea.Time = ((3 : Nat) : Int) * ((50000000 : Nat) : Int) :=
  Equal_drift_accumulates.1 50000000 3 (by decide) (by decide) (by decide) (by decide)

end AsciinemaDiff
